import Mathlib

namespace QuizPlugin

/-!
Verification development for the astrbot quiz plugin.

The definitions below are a shallow embedding of the plugin's source:
`auto_login.py` (credential negotiation), `smart_quiz_api.py` (answer
resolution, per-chapter answering), `api_client.py` (the standalone search
client), and `main.py` (task scheduler, binding store, job execution).
External effects (HTTP calls, hashing, encryption, wall-clock time) are
abstracted into explicit parameters or symbolic constructors; the control
flow is translated statement by statement from the Python source.
-/

/-! Credential negotiation (`auto_login.py`)

`generate_password_hash` builds a list of candidate password encodings; the
digest computations themselves are irrelevant to the claims, so a candidate
is represented symbolically by the digest algorithm applied and the exact
input string fed to it. -/

/-- The digest algorithms used by `generate_password_hash`, in source order. -/
inductive Digest
  | md5
  | sha1
  | sha256
  deriving DecidableEq

/-- Hex-output length of each digest, as produced by `hexdigest()`. -/
def Digest.hexLen : Digest → Nat
  | .md5 => 32
  | .sha1 => 40
  | .sha256 => 64

/-- A candidate password encoding: the raw password, or a digest applied to
an input string built from the password and (optionally) the login key. -/
inductive PwCandidate
  | plain (pw : String)
  | hashed (d : Digest) (input : String)
  deriving DecidableEq

/-- Embedding of `SanSanZhiAutoLogin.generate_password_hash`: the base list
is `[password, md5(password), sha1(password), sha256(password)]`; when a key
is present the four combination hashes are appended in source order. -/
def generatePasswordHash (password : String) (key : Option String) : List PwCandidate :=
  let base := [PwCandidate.plain password,
               PwCandidate.hashed .md5 password,
               PwCandidate.hashed .sha1 password,
               PwCandidate.hashed .sha256 password]
  match key with
  | some k => base ++ [PwCandidate.hashed .md5 (password ++ k),
                       PwCandidate.hashed .md5 (k ++ password),
                       PwCandidate.hashed .sha1 (password ++ k),
                       PwCandidate.hashed .sha256 (password ++ k)]
  | none => base

/-- The candidate-testing loop of `analyze_network_request`: each candidate
is POSTed in order (`classify` abstracts `test_login_with_password_format`,
i.e. the server's response classification); the loop stops at the first
success. Returns the 0-based index of the first successful candidate. -/
def tryCandidates (classify : PwCandidate → Bool) : List PwCandidate → Option Nat
  | [] => none
  | c :: rest =>
    if classify c then some 0
    else (tryCandidates classify rest).map (· + 1)

/-- Embedding of `SanSanZhiAutoLogin.analyze_network_request`: success holds
iff some candidate in `generate_password_hash(password, key)` classifies as
a successful login. -/
def analyzeNetworkRequest (password : String) (key : Option String)
    (classify : PwCandidate → Bool) : Bool :=
  (tryCandidates classify (generatePasswordHash password key)).isSome

/-- Number of login POSTs made by `analyze_network_request`: one per
candidate up to and including the first success, or all of them. -/
def loginAttempts (password : String) (key : Option String)
    (classify : PwCandidate → Bool) : Nat :=
  match tryCandidates classify (generatePasswordHash password key) with
  | some i => i + 1
  | none => (generatePasswordHash password key).length

/-! Oracle calls and answer resolution (`smart_quiz_api.py`)

`QuizBot.api_search` keeps two mutable fields, `api_available` and
`api_error_count`; each invocation performs at most one HTTP POST whose
outcome we abstract as an `ApiOutcome`. -/

/-- Mutable Oracle state of a `QuizBot` instance
(`api_available`, `api_error_count`); fresh instances start at
`(True, 0)` per `__init__`. -/
structure ApiState where
  apiAvailable : Bool
  apiErrorCount : Nat
  deriving DecidableEq

/-- Oracle state of a freshly constructed `QuizBot`. -/
def initApiState : ApiState := ⟨true, 0⟩

/-- Outcome of the single HTTP POST inside `QuizBot.api_search`:
`ok a` is an HTTP 200 whose body has the recognized
`success`/`data`/`correctAnswer` shape with a truthy answer `a`;
`okNoAnswer` is an HTTP 200 with an unrecognized body (or empty answer);
`httpErr` is a non-200 status (404, 401 or other);
`netErr` is a timeout, connection error or other exception. -/
inductive ApiOutcome
  | ok (answer : String)
  | okNoAnswer
  | httpErr
  | netErr
  deriving DecidableEq

/-- Embedding of `QuizBot.api_search`. Returns the new Oracle state, the
answer, and the number of HTTP POSTs performed (0 or 1). The early returns
mirror the source: a disabled Oracle or an error count already at 3 returns
`None` without any network call; a successful answer resets the error count
to 0 and returns before the final disable check; error outcomes increment
the count and disable the Oracle once the count reaches 3. -/
def apiSearch (s : ApiState) (outcome : ApiOutcome) : ApiState × Option String × Nat :=
  if s.apiAvailable = false then (s, none, 0)
  else if 3 ≤ s.apiErrorCount then (s, none, 0)
  else
    match outcome with
    | .ok a => (⟨s.apiAvailable, 0⟩, some a, 1)
    | .okNoAnswer =>
        (⟨if 3 ≤ s.apiErrorCount then false else s.apiAvailable, s.apiErrorCount⟩, none, 1)
    | .httpErr =>
        (⟨if 3 ≤ s.apiErrorCount + 1 then false else s.apiAvailable, s.apiErrorCount + 1⟩,
         none, 1)
    | .netErr =>
        (⟨if 3 ≤ s.apiErrorCount + 1 then false else s.apiAvailable, s.apiErrorCount + 1⟩,
         none, 1)

/-- Whether an outcome is one of the error cases that increment
`api_error_count` (non-200 status, timeout, connection error, exception). -/
def ApiOutcome.isErr : ApiOutcome → Bool
  | .httpErr => true
  | .netErr => true
  | _ => false

/-- One entry of the local question bank: a recorded question text and its
`selected_answer` (the empty string models a missing/falsy answer). -/
structure BankEntry where
  questionText : String
  selectedAnswer : String
  deriving DecidableEq

/-- The local-bank scan inside `QuizBot.find_answer`: the first entry whose
text matches exactly and whose recorded answer is truthy wins; entries with
a matching text but a falsy answer are passed over. -/
def bankLookup (bank : List BankEntry) (q : String) : Option String :=
  match bank with
  | [] => none
  | e :: rest =>
    if e.questionText = q ∧ e.selectedAnswer ≠ "" then some e.selectedAnswer
    else bankLookup rest q

/-- Embedding of `QuizBot.find_answer`: local bank first, then the Oracle.
Returns the new Oracle state, the answer, and the number of Oracle POSTs. -/
def findAnswer (bank : List BankEntry) (q : String) (s : ApiState)
    (outcome : ApiOutcome) : ApiState × Option String × Nat :=
  match bankLookup bank q with
  | some a => (s, some a, 0)
  | none => apiSearch s outcome

/-! Standalone search client (`api_client.py`)

`APIClient.search_answer` is the only place in the repository with a retry
loop; it is not invoked by the quiz pipeline. Each loop iteration performs
one POST whose outcome is abstracted below. -/

/-- Outcome of one POST inside `APIClient.search_answer`. `okRecognized` is
an HTTP 200 whose JSON matches one of the three recognized shapes;
`okUnrecognized` is a 200 whose JSON dict matches none of them; `badJson` is
a 200 with a JSON decode failure; the rest name the HTTP/network cases the
source distinguishes. -/
inductive AttemptOutcome
  | okRecognized (answer : String)
  | okUnrecognized
  | badJson
  | notFound
  | unauthorized
  | serverErr
  | otherHttp
  | timeout
  | connErr
  | otherExn
  deriving DecidableEq

/-- The retry loop of `APIClient.search_answer`: `fuel` counts the remaining
iterations (`retry_count` at the top-level call), `i` is the attempt index.
Returns the final result and the number of POSTs made. `okRecognized`,
`okUnrecognized` and `unauthorized` return immediately; `notFound` retries
and yields `"NOT_FOUND"` on the last iteration; all other failures retry
(after a 1-2s sleep in the source) and yield `none` on the last iteration. -/
def searchAnswerGo (outcomes : Nat → AttemptOutcome) : Nat → Nat → Option String × Nat
  | 0, _ => (none, 0)
  | Nat.succ fuel, i =>
    match outcomes i with
    | .okRecognized a => (some a, 1)
    | .okUnrecognized => (none, 1)
    | .unauthorized => (some "UNAUTHORIZED", 1)
    | .notFound =>
        if fuel = 0 then (some "NOT_FOUND", 1)
        else
          let r := searchAnswerGo outcomes fuel (i + 1)
          (r.1, r.2 + 1)
    | .badJson | .serverErr | .otherHttp | .timeout | .connErr | .otherExn =>
        if fuel = 0 then (none, 1)
        else
          let r := searchAnswerGo outcomes fuel (i + 1)
          (r.1, r.2 + 1)

/-- The default `retry_count` of `APIClient`. -/
def clientRetryCount : Nat := 3

/-- Embedding of `APIClient.search_answer` with the default retry count. -/
def searchAnswer (outcomes : Nat → AttemptOutcome) : Option String × Nat :=
  searchAnswerGo outcomes clientRetryCount 0

/-! Task scheduler (`main.py`)

The scheduler is modelled as a state machine. A step is one of the atomic
mutations the plugin performs on its task registry and queue: submitting a
start request (`_handle_start` after validation), a user/admin cancel
(`_handle_cancel` / `_admin_cancel`), a worker dequeuing the next task
(`_worker_loop` together with the head of `_run_task`), a running job
finishing (`_run_task` tail), and the retention sweep (`_cleanup_tasks`).
`time.time()` is modelled by a logical clock incremented at every step.
The ghost fields `startedWrites`/`finishedWrites` count how many times the
source assigns `started_at`/`finished_at` on the task. -/

/-- Task lifecycle status strings of `QuizTask.status`. -/
inductive TaskStatus
  | queued
  | running
  | canceling
  | completed
  | failed
  | canceled
  deriving DecidableEq

/-- The statuses `_has_active_task` treats as active. -/
def TaskStatus.isActive : TaskStatus → Bool
  | .queued => true
  | .running => true
  | _ => false

/-- The terminal statuses (the set checked by `_handle_cancel`). -/
def TaskStatus.isTerminal : TaskStatus → Bool
  | .completed => true
  | .failed => true
  | .canceled => true
  | _ => false

/-- Embedding of `QuizTask` (the fields the claims are about), plus ghost
write counters for the two optional timestamps. -/
structure SchedTask where
  taskId : Nat
  owner : String
  status : TaskStatus
  createdAt : Nat
  startedAt : Option Nat
  finishedAt : Option Nat
  cancelRequested : Bool
  startedWrites : Nat
  finishedWrites : Nat
  deriving DecidableEq

/-- Scheduler state: the task registry `self._tasks`, the FIFO
`self._queue` (as task ids), a logical clock, and the id counter. -/
structure SchedState where
  tasks : List SchedTask
  queue : List Nat
  clock : Nat
  nextId : Nat
  deriving DecidableEq

/-- The empty scheduler at plugin construction. -/
def initSched : SchedState := ⟨[], [], 0, 0⟩

/-- Update the task with the given id (task ids are unique in reachable
states, so at most one task is touched). -/
def updateTask (tasks : List SchedTask) (tid : Nat) (f : SchedTask → SchedTask) :
    List SchedTask :=
  tasks.map (fun t => if t.taskId = tid then f t else t)

/-- The predicate `_has_active_task` checks on each registered task. -/
def activeFor (u : String) (t : SchedTask) : Bool :=
  t.owner == u && t.status.isActive

/-- Embedding of `_has_active_task`. -/
def hasActiveTask (s : SchedState) (u : String) : Bool :=
  s.tasks.any (activeFor u)

/-- The stable rejection message `_handle_start` returns while a user has an
active task. -/
def busyMessage : String := "你已有进行中的任务，请等待完成或使用 /答题 状态 查看。"

/-- Embedding of the admission part of `_handle_start`: reject when the user
already has an active task, otherwise record the new task and enqueue it
(both under the task lock in the source). Returns the new state, whether the
request was accepted, and the reply text (abstracted to `busyMessage` or
empty). -/
def handleStart (s : SchedState) (u : String) : SchedState × Bool × String :=
  if hasActiveTask s u then (s, false, busyMessage)
  else
    let t : SchedTask :=
      ⟨s.nextId, u, .queued, s.clock, none, none, false, 0, 0⟩
    (⟨s.tasks ++ [t], s.queue ++ [s.nextId], s.clock + 1, s.nextId + 1⟩, true, "")

/-- Embedding of `_handle_cancel` (and `_admin_cancel`, which differs only
in the ownership check): terminal tasks cannot be cancelled; a queued task
is marked `canceled` with `finished_at` set immediately; a running (or
already canceling) task has its cancel event set and is marked
`canceling`. -/
def handleCancel (s : SchedState) (u : String) (tid : Nat) : SchedState :=
  match s.tasks.find? (fun t => t.taskId == tid) with
  | none => ⟨s.tasks, s.queue, s.clock + 1, s.nextId⟩
  | some t =>
    if t.owner ≠ u then ⟨s.tasks, s.queue, s.clock + 1, s.nextId⟩
    else if t.status.isTerminal then ⟨s.tasks, s.queue, s.clock + 1, s.nextId⟩
    else if t.status = .queued then
      ⟨updateTask s.tasks tid (fun t0 =>
        { t0 with cancelRequested := true, status := .canceled,
                  finishedAt := some s.clock,
                  finishedWrites := t0.finishedWrites + 1 }),
       s.queue, s.clock + 1, s.nextId⟩
    else
      ⟨updateTask s.tasks tid (fun t0 =>
        { t0 with cancelRequested := true, status := .canceling }),
       s.queue, s.clock + 1, s.nextId⟩

/-- Embedding of one worker iteration up to the start of the job: pop the
queue head; if its cancel event is set, mark it `canceled` and stamp
`finished_at` again (the drain branch of `_worker_loop`); otherwise
`_run_task` marks it `running` and stamps `started_at`. A task already
purged from the registry is skipped. -/
def dequeueStep (s : SchedState) : SchedState :=
  match s.queue with
  | [] => s
  | tid :: rest =>
    match s.tasks.find? (fun t => t.taskId == tid) with
    | none => ⟨s.tasks, rest, s.clock + 1, s.nextId⟩
    | some t =>
      if t.cancelRequested then
        ⟨updateTask s.tasks tid (fun t0 =>
          { t0 with status := .canceled, finishedAt := some s.clock,
                    finishedWrites := t0.finishedWrites + 1 }),
         rest, s.clock + 1, s.nextId⟩
      else
        ⟨updateTask s.tasks tid (fun t0 =>
          { t0 with status := .running, startedAt := some s.clock,
                    startedWrites := t0.startedWrites + 1 }),
         rest, s.clock + 1, s.nextId⟩

/-- Embedding of the tail of `_run_task`: the executing worker stores the
pipeline outcome (`completed`, `failed` or `canceled`) and stamps
`finished_at`. Only a task currently `running` or `canceling` can finish,
and the stored status is always terminal. -/
def finishStep (s : SchedState) (tid : Nat) (outcome : TaskStatus) : SchedState :=
  match s.tasks.find? (fun t => t.taskId == tid) with
  | none => ⟨s.tasks, s.queue, s.clock + 1, s.nextId⟩
  | some t =>
    if (t.status = .running ∨ t.status = .canceling) ∧ outcome.isTerminal = true then
      ⟨updateTask s.tasks tid (fun t0 =>
        { t0 with status := outcome, finishedAt := some s.clock,
                  finishedWrites := t0.finishedWrites + 1 }),
       s.queue, s.clock + 1, s.nextId⟩
    else ⟨s.tasks, s.queue, s.clock + 1, s.nextId⟩

/-- Embedding of `_cleanup_tasks` on one task: a finished task past the
retention window is removed from the registry. -/
def cleanupStep (s : SchedState) (tid : Nat) : SchedState :=
  ⟨s.tasks.filter (fun t => !(t.taskId == tid && t.finishedAt.isSome)),
   s.queue, s.clock + 1, s.nextId⟩

/-- One atomic scheduler step. -/
inductive SchedStep : SchedState → SchedState → Prop
  | start (s : SchedState) (u : String) : SchedStep s (handleStart s u).1
  | cancel (s : SchedState) (u : String) (tid : Nat) : SchedStep s (handleCancel s u tid)
  | dequeue (s : SchedState) : SchedStep s (dequeueStep s)
  | finish (s : SchedState) (tid : Nat) (outcome : TaskStatus) :
      SchedStep s (finishStep s tid outcome)
  | cleanup (s : SchedState) (tid : Nat) : SchedStep s (cleanupStep s tid)

/-- Scheduler states reachable from the initial state. -/
inductive SchedReachable : SchedState → Prop
  | init : SchedReachable initSched
  | step {s s' : SchedState} : SchedReachable s → SchedStep s s' → SchedReachable s'

/-- Number of active (queued or running) tasks a user owns. -/
def activeCount (s : SchedState) (u : String) : Nat :=
  s.tasks.countP (activeFor u)

/-- Per-task part of the scheduler invariant, at logical clock `clock`. -/
structure TaskInv (clock : Nat) (t : SchedTask) : Prop where
  created_le : t.createdAt ≤ clock
  started_le : ∀ st, t.startedAt = some st → t.createdAt ≤ st ∧ st ≤ clock
  finished_le : ∀ f, t.finishedAt = some f →
    t.createdAt ≤ f ∧ f ≤ clock ∧ ∀ st, t.startedAt = some st → st ≤ f
  startedW_le : t.startedWrites ≤ 1
  started_iff : t.startedAt.isSome = true ↔ t.startedWrites = 1
  finished_iff : t.finishedAt.isSome = true ↔ t.status.isTerminal = true
  finishedW_iff : t.finishedAt = none ↔ t.finishedWrites = 0
  finishedW_le : t.finishedWrites ≤ 2
  finishedW_two : t.finishedWrites = 2 →
    t.status = TaskStatus.canceled ∧ t.startedAt = none
  done_started : t.status = TaskStatus.completed ∨ t.status = TaskStatus.failed →
    t.startedAt.isSome = true
  run_started : t.status = TaskStatus.running ∨ t.status = TaskStatus.canceling →
    t.startedAt.isSome = true ∧ t.finishedAt = none
  queued_clean : t.status = TaskStatus.queued →
    t.startedAt = none ∧ t.finishedAt = none ∧ t.cancelRequested = false

/-- Global scheduler invariant. -/
structure StateInv (s : SchedState) : Prop where
  activeBound : ∀ u, activeCount s u ≤ 1
  taskInv : ∀ t ∈ s.tasks, TaskInv s.clock t
  idBound : ∀ t ∈ s.tasks, t.taskId < s.nextId
  idsInj : ∀ t ∈ s.tasks, ∀ t' ∈ s.tasks, t.taskId = t'.taskId → t = t'
  queueNodup : s.queue.Nodup
  queueBound : ∀ tid ∈ s.queue, tid < s.nextId
  queuedInQueue : ∀ t ∈ s.tasks, t.status = TaskStatus.queued → t.taskId ∈ s.queue
  queueStatus : ∀ tid ∈ s.queue, ∀ t ∈ s.tasks, t.taskId = tid →
    t.status = TaskStatus.queued ∨
    (t.status = TaskStatus.canceled ∧ t.cancelRequested = true ∧
      t.startedAt = none ∧ t.finishedWrites = 1)

/-! Spec parsing helpers (`main.py`)

`_parse_range` and `_parse_index_list` work on the raw spec string. Python's
`str.split(sep)` and `int()` on plain numerals are embedded directly on
character lists. -/

/-- Python's `text.split(sep)` for a single-character separator, on the
character list. -/
def splitOnCharAux (sep : Char) : List Char → List (List Char)
  | [] => [[]]
  | c :: rest =>
    let r := splitOnCharAux sep rest
    if c = sep then [] :: r
    else
      match r with
      | [] => [[c]]
      | g :: gs => (c :: g) :: gs

/-- Python's `text.split(sep)` for a single-character separator. -/
def splitOnChar (sep : Char) (s : String) : List String :=
  (splitOnCharAux sep s.data).map (fun l => String.mk l)

/-- Digits-only numeral parse (the `item.isdigit()` guard plus `int(item)`). -/
def parseNatDigits (l : List Char) : Option Nat :=
  if l = [] ∨ (l.all Char.isDigit) = false then none
  else some (l.foldl (fun acc c => acc * 10 + (c.toNat - Char.toNat '0')) 0)

/-- Python's `int()` on a simple optionally-signed numeral. -/
def parseIntChars (l : List Char) : Option Int :=
  match l with
  | '-' :: rest => (parseNatDigits rest).map (fun n => -(n : Int))
  | _ => (parseNatDigits l).map (fun n => (n : Int))

/-- Python's `item.strip()` restricted to whitespace. -/
def stripChars (l : List Char) : List Char :=
  ((l.dropWhile Char.isWhitespace).reverse.dropWhile Char.isWhitespace).reverse

/-- Insertion into a sorted list (used to model Python's `sorted`). -/
def insertSorted (n : Nat) : List Nat → List Nat
  | [] => [n]
  | m :: rest => if n ≤ m then n :: m :: rest else m :: insertSorted n rest

/-- Ascending sort of a list of naturals. -/
def sortNats (l : List Nat) : List Nat := l.foldr insertSorted []

/-- Embedding of `_parse_index_list`: split on commas, strip, keep pure
digit items, parse, then `sorted(set(result))`. -/
def parseIndexList (text : String) : List Nat :=
  let items := (splitOnChar ',' text).map (fun s => stripChars s.data)
  let nums := items.filterMap parseNatDigits
  sortNats nums.dedup

/-- Embedding of `_parse_range`: split on a dash; exactly two parts are
required; both must parse as integers; both must be positive with
`start ≤ end`, otherwise a `ValueError` (here `Except.error`) is raised. -/
def parseRange (text : String) : Except String (Int × Int) :=
  match splitOnChar '-' text with
  | [p1, p2] =>
    match parseIntChars p1.data, parseIntChars p2.data with
    | some a, some b =>
        if a ≤ 0 ∨ b ≤ 0 ∨ a > b then Except.error "范围参数错误"
        else Except.ok (a, b)
    | _, _ => Except.error "invalid literal for int"
  | _ => Except.error "范围格式错误，应为 1-5"

/-! Per-chapter answering (`QuizBot.auto_answer_with_report`)

A chapter's fetched page is abstracted as `ChapterPage`; each parsed
question block (`ul.question`) is a `PipeQuestion` recording what the
resolution chain returned for it and whether an answer input was present. -/

/-- One question block of a chapter page: whether it has a
`question_title` item, what `find_answer` returns for it (`none` models an
unresolved question), the name of its answer input (`none` models a missing
input tag or an empty `name`), and whether the question text is in the
local bank (for the local/api counters). -/
structure PipeQuestion where
  hasTitle : Bool
  foundAnswer : Option String
  inputName : Option String
  inBank : Bool
  deriving DecidableEq

/-- The remote data `auto_answer_with_report` consumes for one chapter:
whether the exam page loaded (HTTP 200), whether the `post_form` was found,
the parsed question blocks, and the HTTP status the submission POST would
return. -/
structure ChapterPage where
  pageOk : Bool
  formFound : Bool
  questions : List PipeQuestion
  submitHttpStatus : Nat
  deriving DecidableEq

/-- The `stats` dictionary of a chapter report. -/
structure AnswerStats where
  total : Nat
  answered : Nat
  localCount : Nat
  apiCount : Nat
  missing : Nat
  deriving DecidableEq

/-- The zero-initialized `stats` dictionary. -/
def zeroStats : AnswerStats := ⟨0, 0, 0, 0, 0⟩

/-- A chapter report, plus the ghost flag `submitCalled` recording whether
the submission POST was performed. -/
structure ChapterReport where
  success : Bool
  status : String
  message : String
  stats : AnswerStats
  submitCalled : Bool
  deriving DecidableEq

/-- The question loop of `auto_answer_with_report`: untitled blocks are
skipped entirely; a titled block counts toward `total`; a resolved answer
with a named input is recorded in `answer_data` and counts as answered
(local or api per the bank check); a resolved answer without a usable input
counts toward neither `answered` nor `missing`; an unresolved question
counts toward `missing`. -/
def scanQuestionsAux (st : AnswerStats) (ad : List (String × String)) :
    List PipeQuestion → AnswerStats × List (String × String)
  | [] => (st, ad)
  | q :: rest =>
    if q.hasTitle = false then scanQuestionsAux st ad rest
    else
      match q.foundAnswer with
      | some a =>
        match q.inputName with
        | some nm =>
            scanQuestionsAux
              { st with
                total := st.total + 1,
                answered := st.answered + 1,
                localCount := (if q.inBank then st.localCount + 1 else st.localCount),
                apiCount := (if q.inBank then st.apiCount else st.apiCount + 1) }
              (ad ++ [(nm, a)]) rest
        | none => scanQuestionsAux { st with total := st.total + 1 } ad rest
      | none =>
          scanQuestionsAux
            { st with
              total := st.total + 1,
              missing := st.missing + 1 } ad rest

/-- The question loop started from empty accumulators. -/
def scanQuestions (qs : List PipeQuestion) : AnswerStats × List (String × String) :=
  scanQuestionsAux zeroStats [] qs

/-- Embedding of `QuizBot.auto_answer_with_report`: the early HTTP/parse
failures, the question scan, the strict-mode and coverage gates, the
`submit` switch, the empty-answer-data guard, and the submission POST with
its status check, in source order. -/
def autoAnswerWithReport (page : ChapterPage) (submit strict : Bool)
    (minRate : ℚ) : ChapterReport :=
  if page.pageOk = false then ⟨false, "error", "访问失败", zeroStats, false⟩
  else if page.formFound = false then ⟨false, "error", "未找到答题表单", zeroStats, false⟩
  else if page.questions = [] then ⟨false, "error", "未找到题目列表", zeroStats, false⟩
  else
    let scanned := scanQuestions page.questions
    let st := scanned.1
    let ad := scanned.2
    if st.total = 0 then ⟨false, "error", "未解析到题目", st, false⟩
    else if strict = true ∧ st.missing > 0 then
      ⟨false, "insufficient_answers", "存在未找到答案的题目，已停止提交", st, false⟩
    else if (st.answered : ℚ) / (st.total : ℚ) < minRate then
      ⟨false, "insufficient_answers", "答题覆盖率未达标，已停止提交", st, false⟩
    else if submit = false then ⟨true, "prepared", "已生成答案，未提交", st, false⟩
    else if ad = [] then ⟨false, "error", "未生成任何答案", st, false⟩
    else if page.submitHttpStatus = 200 then ⟨true, "submitted", "提交成功", st, true⟩
    else ⟨false, "error", "提交失败: HTTP " ++ toString page.submitHttpStatus, st, true⟩

/-! Job execution (`_execute_task_sync`) -/

/-- A discovered chapter (`exam_id`, display name). -/
structure ChapterRef where
  examId : Nat
  chName : String
  deriving DecidableEq

/-- The chapter loop of `_execute_task_sync`: before each chapter the
cancel event is checked (index `i` counts processed chapters); each chapter
is answered via `auto_answer_with_report`; the loop breaks after a chapter
whose report status is `insufficient_answers` when strict mode is on.
Returns the processed `(chapter, report)` pairs in order and whether the
loop stopped due to cancellation. -/
def runChapters (pages : Nat → ChapterPage) (cancelAt : Nat → Bool)
    (submit strict : Bool) (minRate : ℚ) :
    List ChapterRef → Nat → List (ChapterRef × ChapterReport) × Bool
  | [], _ => ([], false)
  | c :: rest, i =>
    if cancelAt i then ([], true)
    else
      let r := autoAnswerWithReport (pages c.examId) submit strict minRate
      if r.status = "insufficient_answers" ∧ strict = true then ([(c, r)], false)
      else
        let tailRes := runChapters pages cancelAt submit strict minRate rest (i + 1)
        ((c, r) :: tailRes.1, tailRes.2)

/-- Network calls a job performs, in order. -/
inductive NetEv
  | loginStatusCheck
  | loginNegotiation
  | fetchCourses
  | fetchChapters
  | fetchCompletions
  | fetchChapterPage (examId : Nat)
  | submitAnswers (examId : Nat)
  deriving DecidableEq

/-- The network events of the chapter loop: one exam-page fetch per
processed chapter plus one submission POST when the report made one. -/
def chapterEvents (processed : List (ChapterRef × ChapterReport)) : List NetEv :=
  (processed.map (fun p =>
    NetEv.fetchChapterPage p.1.examId ::
      (if p.2.submitCalled then [NetEv.submitAnswers p.1.examId] else []))).flatten

/-- The remote world a job runs against. -/
structure PipeEnv where
  bindingFound : Bool
  alreadyLoggedIn : Bool
  loginNegotiationOk : Bool
  courseIds : List Nat
  chapters : List ChapterRef
  completedIds : List Nat
  pages : Nat → ChapterPage

/-- The mode dispatch of `_execute_task_sync`, applied to the fetched
chapter list. Returns the selection (or the raised error) and whether the
completion records were fetched (only `未完成` does). `未完成` keeps chapters
absent from the completed set; `指定` keeps the 1-based positions of
`_parse_index_list`, dropping out-of-range ones; `范围` is the Python slice
`chapters[start-1:end]` after `_parse_range` validation; `全部` keeps all;
any other mode fails. -/
def selectChapters (env : PipeEnv) (mode spec : String) :
    Except String (List ChapterRef) × Bool :=
  if mode = "未完成" then
    (Except.ok (env.chapters.filter
       (fun c => !(env.completedIds.contains c.examId))), true)
  else if mode = "指定" then
    (Except.ok ((parseIndexList spec).filterMap (fun i =>
       if 0 < i ∧ i ≤ env.chapters.length then env.chapters[i - 1]? else none)),
     false)
  else if mode = "范围" then
    match parseRange spec with
    | Except.error e => (Except.error e, false)
    | Except.ok (a, b) =>
        (Except.ok ((env.chapters.drop (a.toNat - 1)).take
           (b.toNat - (a.toNat - 1))), false)
  else if mode = "全部" then (Except.ok env.chapters, false)
  else (Except.error "未知模式", false)

/-- `"；".join(...)` style joining. -/
def joinSep (sep : String) : List String → String
  | [] => ""
  | [x] => x
  | x :: xs => x ++ sep ++ joinSep sep xs

/-- The up-to-3 failure examples collected across the chapter loop. -/
def failureExamples (processed : List (ChapterRef × ChapterReport)) : List String :=
  ((processed.filter (fun p => p.2.success = false ∧ p.2.message ≠ "")).take 3).map
    (fun p => p.1.chName ++ ": " ++ p.2.message)

/-- The last `insufficient_answers` message seen in the loop (the loop
overwrites `stopped_reason` each time one occurs). -/
def lastInsufficientMessage (processed : List (ChapterRef × ChapterReport)) :
    Option String :=
  ((processed.filter (fun p => p.2.status = "insufficient_answers")).map
    (fun p => p.2.message)).getLast?

/-- The `stopped_reason` computed by `_execute_task_sync`: cancellation
wins (it breaks the loop and overwrites), else the last insufficient
message, else a synthesized failure summary when chapters failed. -/
def stoppedReason (processed : List (ChapterRef × ChapterReport))
    (canceled : Bool) (failCount : Nat) : Option String :=
  if canceled then some "任务已取消"
  else
    match lastInsufficientMessage processed with
    | some m => some m
    | none =>
      if failCount > 0 then
        if failureExamples processed = [] then
          some ("有 " ++ toString failCount ++ " 个章节失败")
        else some ("章节失败：" ++ joinSep "；" (failureExamples processed))
      else none

/-- The structured result of `_execute_task_sync` plus the network-event
trace (the ghost observation for the discovery-ordering claims). -/
structure ExecOutcome where
  success : Bool
  error : Option String
  canceled : Bool
  processed : List (ChapterRef × ChapterReport)
  events : List NetEv

/-- Embedding of `_execute_task_sync`: binding lookup, login check and
negotiation, course discovery and lookup, chapter discovery, mode dispatch
(including the range validation, which raises after the discovery calls),
empty-selection check, the chapter loop, and the final summary. -/
def execTaskSync (env : PipeEnv) (mode spec : String) (courseId : Nat)
    (strict autoSubmit : Bool) (minRate : ℚ) (cancelAt : Nat → Bool) :
    ExecOutcome :=
  if env.bindingFound = false then ⟨false, some "未找到绑定账号", false, [], []⟩
  else
    let loginEvs := if env.alreadyLoggedIn then [NetEv.loginStatusCheck]
                    else [NetEv.loginStatusCheck, NetEv.loginNegotiation]
    if env.alreadyLoggedIn = false ∧ env.loginNegotiationOk = false then
      ⟨false, some "登录失败", false, [], loginEvs⟩
    else
      let evs1 := loginEvs ++ [NetEv.fetchCourses]
      if env.courseIds.contains courseId = false then
        ⟨false, some "课程不存在或已变更", false, [], evs1⟩
      else
        let evs2 := evs1 ++ [NetEv.fetchChapters]
        if env.chapters = [] then ⟨false, some "未获取到章节", false, [], evs2⟩
        else
          let sel := selectChapters env mode spec
          let evs3 := evs2 ++ (if sel.2 then [NetEv.fetchCompletions] else [])
          match sel.1 with
          | Except.error e => ⟨false, some e, false, [], evs3⟩
          | Except.ok selected =>
            if selected = [] then ⟨false, some "未选中章节", false, [], evs3⟩
            else
              let res := runChapters env.pages cancelAt autoSubmit strict minRate
                selected 0
              let failCount := (res.1.filter (fun p => p.2.success = false)).length
              let stopped := stoppedReason res.1 res.2 failCount
              ⟨failCount = 0 ∧ stopped = none, stopped, res.2, res.1,
               evs3 ++ chapterEvents res.1⟩

/-! Binding store (`BindingStore` in `main.py`)

The JSON document maps a user id to a binding record; encryption and
decryption are abstracted as function parameters (`Fernet.encrypt`, and
`Fernet.decrypt` returning `none` for an `InvalidToken`). -/

/-- A stored binding record (`username`, encrypted `password`,
`bound_at`, `updated_at`). -/
structure BindingRecord where
  username : String
  password : String
  boundAt : String
  updatedAt : String
  deriving DecidableEq

/-- Lookup in the bindings mapping. -/
def storeFind (bs : List (String × BindingRecord)) (qq : String) :
    Option BindingRecord :=
  (bs.find? (fun p => p.1 == qq)).map (fun p => p.2)

/-- Rejection message for rebinding a different username. -/
def bindMsgConflict : String := "你已绑定其他账号，按规则不可解绑或更换。"

/-- Success message for refreshing the secret of an existing binding. -/
def bindMsgUpdated : String := "已更新密码（账号未变更）。"

/-- Success message for a fresh binding. -/
def bindMsgNew : String := "绑定成功。此账号将永久绑定，无法解绑或更换。"

/-- Embedding of `BindingStore.bind`: an existing binding with a different
username is rejected untouched; the same username refreshes only the
encrypted secret and `updated_at`; otherwise a fresh record is inserted. -/
def bindAccount (encryptFn : String → String) (now : String)
    (bs : List (String × BindingRecord)) (qq username password : String) :
    List (String × BindingRecord) × Bool × String :=
  match storeFind bs qq with
  | some existing =>
    if existing.username ≠ username then (bs, false, bindMsgConflict)
    else
      (bs.map (fun p => if p.1 = qq then
          (p.1, { p.2 with password := encryptFn password, updatedAt := now })
        else p),
       true, bindMsgUpdated)
  | none =>
    (bs ++ [(qq, ⟨username, encryptFn password, now, now⟩)], true, bindMsgNew)

/-- Embedding of `BindingStore.get`: an absent user yields `none`; a stored
record whose secret fails to decrypt (`InvalidToken`) also yields `none`;
otherwise the decrypted record is returned. -/
def getBinding (decryptFn : String → Option String)
    (bs : List (String × BindingRecord)) (qq : String) : Option BindingRecord :=
  match storeFind bs qq with
  | none => none
  | some d =>
    match decryptFn d.password with
    | none => none
    | some p => some ⟨d.username, p, d.boundAt, d.updatedAt⟩

/-! Theorems: general lemmas about the embedded operations, the scheduler
invariant, and the claim theorems with their witnesses and counterexamples. -/

theorem tryCandidates_le_length (classify : PwCandidate → Bool) :
    ∀ cs : List PwCandidate, ∀ i, tryCandidates classify cs = some i → i < cs.length := by
  intro cs
  induction cs with
  | nil => intro i h; simp [tryCandidates] at h
  | cons c rest ih =>
    intro i h
    simp only [tryCandidates] at h
    by_cases hc : classify c
    · simp [hc] at h
      subst h
      simp
    · simp [hc, Option.map_eq_some] at h
      obtain ⟨j, hj, rfl⟩ := h
      have := ih j hj
      simp
      omega

theorem loginAttempts_le (password : String) (key : Option String)
    (classify : PwCandidate → Bool) :
    loginAttempts password key classify ≤ (generatePasswordHash password key).length := by
  unfold loginAttempts
  cases h : tryCandidates classify (generatePasswordHash password key) with
  | none => exact Nat.le_refl _
  | some i => exact tryCandidates_le_length classify _ i h

theorem generatePasswordHash_length (password : String) (key : Option String) :
    (generatePasswordHash password key).length = if key.isSome then 8 else 4 := by
  cases key <;> simp [generatePasswordHash]

/-- First-success characterization of the candidate loop. -/
theorem tryCandidates_spec (classify : PwCandidate → Bool) :
    ∀ cs : List PwCandidate, ∀ i, tryCandidates classify cs = some i →
      ∃ c, cs[i]? = some c ∧ classify c = true ∧
        ∀ j, j < i → ∀ c', cs[j]? = some c' → classify c' = false := by
  intro cs
  induction cs with
  | nil => intro i h; simp [tryCandidates] at h
  | cons c rest ih =>
    intro i h
    simp only [tryCandidates] at h
    by_cases hc : classify c
    · simp [hc] at h
      subst h
      exact ⟨c, by simp, hc, by omega⟩
    · simp [hc, Option.map_eq_some] at h
      obtain ⟨j, hj, rfl⟩ := h
      obtain ⟨c', hc', hcla, hbefore⟩ := ih j hj
      refine ⟨c', by simpa using hc', hcla, ?_⟩
      intro k hk c'' hc''
      cases k with
      | zero =>
        simp at hc''
        subst hc''
        simpa using hc
      | succ k =>
        exact hbefore k (by omega) c'' (by simpa using hc'')

/-- Failure case: the loop fails only after every candidate was classified
as unsuccessful. -/
theorem tryCandidates_none (classify : PwCandidate → Bool) :
    ∀ cs : List PwCandidate, tryCandidates classify cs = none →
      ∀ c ∈ cs, classify c = false := by
  intro cs
  induction cs with
  | nil => intro _ c hc; simp at hc
  | cons c rest ih =>
    intro h c' hc'
    simp only [tryCandidates] at h
    by_cases hc : classify c
    · simp [hc] at h
    · simp [hc] at h
      rcases List.mem_cons.mp hc' with rfl | hmem
      · simpa using hc
      · exact ih h c' hmem

theorem searchAnswerGo_le (outcomes : Nat → AttemptOutcome) :
    ∀ fuel i, (searchAnswerGo outcomes fuel i).2 ≤ fuel := by
  intro fuel
  induction fuel with
  | zero => intro i; simp [searchAnswerGo]
  | succ fuel ih =>
    intro i
    simp only [searchAnswerGo]
    cases outcomes i <;> simp <;>
      first
        | rfl
        | (by_cases hf : fuel = 0
           · simp [hf]
           · simp [hf]
             exact ih (i + 1))

theorem mem_updateTask {p : SchedTask} {tasks : List SchedTask} {tid : Nat}
    {f : SchedTask → SchedTask} (h : p ∈ updateTask tasks tid f) :
    (∃ t, t ∈ tasks ∧ t.taskId = tid ∧ p = f t) ∨ (p ∈ tasks ∧ p.taskId ≠ tid) := by
  unfold updateTask at h
  obtain ⟨t, ht, heq⟩ := List.mem_map.mp h
  by_cases hid : t.taskId = tid
  · left
    exact ⟨t, ht, hid, by simp [hid] at heq; exact heq.symm⟩
  · right
    simp [hid] at heq
    subst heq
    exact ⟨ht, hid⟩

theorem countP_map_le {α : Type} (p : α → Bool) (g : α → α) :
    ∀ l : List α, (∀ t ∈ l, p (g t) = true → p t = true) →
      (l.map g).countP p ≤ l.countP p := by
  intro l
  induction l with
  | nil => intro _; simp
  | cons x xs ih =>
    intro h
    have hxs := ih (fun t ht => h t (by simp [ht]))
    simp only [List.map_cons, List.countP_cons]
    have hone : (if p (g x) = true then 1 else 0) ≤ (if p x = true then 1 else 0) := by
      by_cases hgx : p (g x) = true
      · simp [hgx, h x (by simp) hgx]
      · simp [hgx]
    omega

theorem countP_updateTask_le {p : SchedTask → Bool} {tasks : List SchedTask}
    {tid : Nat} {f : SchedTask → SchedTask}
    (h : ∀ t ∈ tasks, t.taskId = tid → p (f t) = true → p t = true) :
    (updateTask tasks tid f).countP p ≤ tasks.countP p := by
  apply countP_map_le
  intro t ht hp
  by_cases hid : t.taskId = tid
  · exact h t ht hid (by simpa [hid] using hp)
  · simpa [hid] using hp

theorem TaskInv.mono {c c' : Nat} {t : SchedTask} (h : TaskInv c t) (hc : c ≤ c') :
    TaskInv c' t := by
  refine ⟨Nat.le_trans h.created_le hc, ?_, ?_, h.startedW_le, h.started_iff,
    h.finished_iff, h.finishedW_iff, h.finishedW_le, h.finishedW_two,
    h.done_started, h.run_started, h.queued_clean⟩
  · intro st hst
    obtain ⟨h1, h2⟩ := h.started_le st hst
    exact ⟨h1, Nat.le_trans h2 hc⟩
  · intro f hf
    obtain ⟨h1, h2, h3⟩ := h.finished_le f hf
    exact ⟨h1, Nat.le_trans h2 hc, h3⟩

theorem stateInv_init : StateInv initSched := by
  constructor <;> simp [initSched, activeCount]

theorem taskInv_new (clock nextId : Nat) (u : String) :
    TaskInv (clock + 1) ⟨nextId, u, TaskStatus.queued, clock, none, none, false, 0, 0⟩ := by
  refine ⟨by simp, ?_, ?_, ?_, ?_, ?_, ?_, ?_, ?_, ?_, ?_, ?_⟩ <;>
    simp [TaskStatus.isTerminal]

theorem stateInv_start_accept {s : SchedState} (hs : StateInv s) (u : String)
    (h : hasActiveTask s u = false) :
    StateInv ⟨s.tasks ++ [⟨s.nextId, u, TaskStatus.queued, s.clock, none, none, false, 0, 0⟩],
              s.queue ++ [s.nextId], s.clock + 1, s.nextId + 1⟩ := by
  have hnone : ∀ t ∈ s.tasks, activeFor u t = false := by
    intro t ht
    by_contra hc
    have : s.tasks.any (activeFor u) = true :=
      List.any_eq_true.mpr ⟨t, ht, by simpa using hc⟩
    rw [hasActiveTask] at h
    simp [this] at h
  constructor
  case activeBound =>
    intro v
    rw [activeCount]
    simp only [List.countP_append]
    by_cases hv : v = u
    · subst hv
      have h0 : s.tasks.countP (activeFor v) = 0 :=
        List.countP_eq_zero.mpr (by intro t ht; simp [hnone t ht])
      simp [h0, List.countP_cons, activeFor, TaskStatus.isActive]
    · have h1 : s.tasks.countP (activeFor v) ≤ 1 := hs.activeBound v
      have h2 : activeFor v ⟨s.nextId, u, TaskStatus.queued, s.clock,
          none, none, false, 0, 0⟩ = false := by
        simp [activeFor]
        intro hu
        exact absurd hu.symm hv
      simp [List.countP_cons, h2]
      omega
  case taskInv =>
    intro t ht
    rcases List.mem_append.mp ht with hmem | hmem
    · exact (hs.taskInv t hmem).mono (by simp)
    · simp at hmem
      subst hmem
      exact taskInv_new s.clock s.nextId u
  case idBound =>
    intro t ht
    dsimp only
    rcases List.mem_append.mp ht with hmem | hmem
    · have := hs.idBound t hmem; omega
    · simp at hmem; subst hmem; simp
  case idsInj =>
    intro t ht t' ht' hid
    rcases List.mem_append.mp ht with hm | hm <;>
      rcases List.mem_append.mp ht' with hm' | hm'
    · exact hs.idsInj t hm t' hm' hid
    · simp at hm'
      subst hm'
      have := hs.idBound t hm
      simp at hid
      omega
    · simp at hm
      subst hm
      have := hs.idBound t' hm'
      simp at hid
      omega
    · simp at hm hm'
      subst hm; subst hm'; rfl
  case queueNodup =>
    rw [List.nodup_append]
    refine ⟨hs.queueNodup, List.nodup_singleton _, ?_⟩
    intro a ha hb
    simp at hb
    subst hb
    have := hs.queueBound _ ha
    omega
  case queueBound =>
    intro tid htid
    dsimp only
    rcases List.mem_append.mp htid with hm | hm
    · have := hs.queueBound tid hm; omega
    · simp at hm; omega
  case queuedInQueue =>
    intro t ht hq
    rcases List.mem_append.mp ht with hm | hm
    · exact List.mem_append_left _ (hs.queuedInQueue t hm hq)
    · simp at hm
      subst hm
      simp
  case queueStatus =>
    intro tid htid t ht hid
    rcases List.mem_append.mp ht with hm | hm
    · rcases List.mem_append.mp htid with hq | hq
      · exact hs.queueStatus tid hq t hm hid
      · simp at hq
        subst hq
        have := hs.idBound t hm
        omega
    · simp at hm
      subst hm
      left
      rfl

theorem stateInv_start {s : SchedState} (hs : StateInv s) (u : String) :
    StateInv (handleStart s u).1 := by
  by_cases h : hasActiveTask s u = true
  · simpa [handleStart, h] using hs
  · rw [Bool.not_eq_true] at h
    simpa [handleStart, h] using stateInv_start_accept hs u h

theorem updateTask_idBound {tasks : List SchedTask} {tid n : Nat}
    {f : SchedTask → SchedTask}
    (hb : ∀ t ∈ tasks, t.taskId < n) (hf : ∀ x, (f x).taskId = x.taskId) :
    ∀ t ∈ updateTask tasks tid f, t.taskId < n := by
  intro t ht
  rcases mem_updateTask ht with ⟨t0, h0, _, rfl⟩ | ⟨h0, _⟩
  · rw [hf]; exact hb t0 h0
  · exact hb t h0

theorem updateTask_idsInj {tasks : List SchedTask} {tid : Nat}
    {f : SchedTask → SchedTask}
    (hinj : ∀ t ∈ tasks, ∀ t' ∈ tasks, t.taskId = t'.taskId → t = t')
    (hf : ∀ x, (f x).taskId = x.taskId) :
    ∀ t ∈ updateTask tasks tid f, ∀ t' ∈ updateTask tasks tid f,
      t.taskId = t'.taskId → t = t' := by
  intro t ht t' ht' he
  rcases mem_updateTask ht with ⟨a, ha, hila, rfl⟩ | ⟨ha, hna⟩ <;>
    rcases mem_updateTask ht' with ⟨b, hb, hilb, rfl⟩ | ⟨hb, hnb⟩
  · rw [hf, hf] at he
    rw [hinj a ha b hb he]
  · rw [hf] at he
    exfalso
    omega
  · rw [hf] at he
    exfalso
    omega
  · exact hinj t ha t' hb he

theorem find?_task_mem {tasks : List SchedTask} {tid : Nat} {t₁ : SchedTask}
    (h : tasks.find? (fun t => t.taskId == tid) = some t₁) :
    t₁ ∈ tasks ∧ t₁.taskId = tid := by
  refine ⟨List.mem_of_find?_eq_some h, ?_⟩
  have := List.find?_some h
  simpa using this

theorem stateInv_cancel_queued {s : SchedState} (hs : StateInv s) {tid : Nat}
    {t₁ : SchedTask}
    (hfind : s.tasks.find? (fun t => t.taskId == tid) = some t₁)
    (hq : t₁.status = TaskStatus.queued) :
    StateInv ⟨updateTask s.tasks tid (fun t0 =>
        { t0 with cancelRequested := true, status := TaskStatus.canceled,
                  finishedAt := some s.clock,
                  finishedWrites := t0.finishedWrites + 1 }),
      s.queue, s.clock + 1, s.nextId⟩ := by
  obtain ⟨hmem₁, hid₁⟩ := find?_task_mem hfind
  have hone : ∀ t ∈ s.tasks, t.taskId = tid → t = t₁ := by
    intro t ht hid
    exact hs.idsInj t ht t₁ hmem₁ (by rw [hid, hid₁])
  have hinv₁ := hs.taskInv t₁ hmem₁
  obtain ⟨hst₁, hfin₁, hcr₁⟩ := hinv₁.queued_clean hq
  have hw₁ : t₁.finishedWrites = 0 := hinv₁.finishedW_iff.mp hfin₁
  constructor
  case activeBound =>
    intro u
    refine Nat.le_trans (countP_updateTask_le ?_) (hs.activeBound u)
    intro t _ _ hp
    simp [activeFor, TaskStatus.isActive] at hp
  case taskInv =>
    intro t ht
    dsimp only at ht ⊢
    rcases mem_updateTask ht with ⟨a, ha, hila, rfl⟩ | ⟨ha, _⟩
    · have haeq : a = t₁ := hone a ha hila
      subst haeq
      refine ⟨by have := hinv₁.created_le; simp; omega, ?_, ?_, ?_, ?_, ?_, ?_, ?_, ?_, ?_, ?_, ?_⟩
      · intro st hst
        simp [hst₁] at hst
      · intro f hf
        simp at hf
        subst hf
        refine ⟨hinv₁.created_le, by omega, ?_⟩
        intro st hst
        simp [hst₁] at hst
      · simpa using hinv₁.startedW_le
      · simpa [hst₁, hw₁] using hinv₁.started_iff
      · simp [TaskStatus.isTerminal]
      · simp [hw₁]
      · simp [hw₁]
      · simp [hw₁]
      · simp
      · simp
      · simp
    · exact (hs.taskInv t ha).mono (by simp)
  case idBound =>
    intro t ht
    exact updateTask_idBound hs.idBound (by intro x; rfl) t ht
  case idsInj =>
    exact updateTask_idsInj hs.idsInj (by intro x; rfl)
  case queueNodup => exact hs.queueNodup
  case queueBound => exact hs.queueBound
  case queuedInQueue =>
    intro t ht hqt
    rcases mem_updateTask ht with ⟨a, _, _, rfl⟩ | ⟨ha, _⟩
    · simp at hqt
    · exact hs.queuedInQueue t ha hqt
  case queueStatus =>
    intro tid' htid' t ht hidt
    rcases mem_updateTask ht with ⟨a, ha, hila, rfl⟩ | ⟨ha, _⟩
    · have haeq : a = t₁ := hone a ha hila
      subst haeq
      right
      exact ⟨rfl, rfl, by simpa using hst₁, by simp [hw₁]⟩
    · exact hs.queueStatus tid' htid' t ha hidt

theorem stateInv_cancel_running {s : SchedState} (hs : StateInv s) {tid : Nat}
    {t₁ : SchedTask}
    (hfind : s.tasks.find? (fun t => t.taskId == tid) = some t₁)
    (hrun : t₁.status = TaskStatus.running ∨ t₁.status = TaskStatus.canceling) :
    StateInv ⟨updateTask s.tasks tid (fun t0 =>
        { t0 with cancelRequested := true, status := TaskStatus.canceling }),
      s.queue, s.clock + 1, s.nextId⟩ := by
  obtain ⟨hmem₁, hid₁⟩ := find?_task_mem hfind
  have hone : ∀ t ∈ s.tasks, t.taskId = tid → t = t₁ := by
    intro t ht hid
    exact hs.idsInj t ht t₁ hmem₁ (by rw [hid, hid₁])
  have hinv₁ := hs.taskInv t₁ hmem₁
  obtain ⟨hst₁, hfin₁⟩ := hinv₁.run_started hrun
  have hW₁ : t₁.finishedWrites = 0 := hinv₁.finishedW_iff.mp hfin₁
  have hnq : tid ∉ s.queue := by
    intro hmemq
    have hqs := hs.queueStatus tid hmemq t₁ hmem₁ hid₁
    rcases hrun with h | h <;> rcases hqs with hqq | ⟨hqc, _⟩ <;> simp_all
  constructor
  case activeBound =>
    intro u
    refine Nat.le_trans (countP_updateTask_le ?_) (hs.activeBound u)
    intro t _ _ hp
    simp [activeFor, TaskStatus.isActive] at hp
  case taskInv =>
    intro t ht
    dsimp only at ht ⊢
    rcases mem_updateTask ht with ⟨a, ha, hila, rfl⟩ | ⟨ha, _⟩
    · have haeq : a = t₁ := hone a ha hila
      subst haeq
      refine ⟨by have := hinv₁.created_le; simp; omega, ?_, ?_, ?_, ?_, ?_, ?_, ?_, ?_, ?_, ?_, ?_⟩
      · intro st hst
        simp at hst
        obtain ⟨h1, h2⟩ := hinv₁.started_le st hst
        exact ⟨h1, by omega⟩
      · intro f hf
        simp [hfin₁] at hf
      · simpa using hinv₁.startedW_le
      · simpa using hinv₁.started_iff
      · simp [hfin₁, TaskStatus.isTerminal]
      · simp [hfin₁, hW₁]
      · simp [hW₁]
      · simp [hW₁]
      · simp
      · intro
        exact ⟨by simpa using hst₁, by simpa using hfin₁⟩
      · simp
    · exact (hs.taskInv t ha).mono (by simp)
  case idBound =>
    intro t ht
    exact updateTask_idBound hs.idBound (by intro x; rfl) t ht
  case idsInj =>
    exact updateTask_idsInj hs.idsInj (by intro x; rfl)
  case queueNodup => exact hs.queueNodup
  case queueBound => exact hs.queueBound
  case queuedInQueue =>
    intro t ht hqt
    rcases mem_updateTask ht with ⟨a, _, _, rfl⟩ | ⟨ha, _⟩
    · simp at hqt
    · exact hs.queuedInQueue t ha hqt
  case queueStatus =>
    intro tid' htid' t ht hidt
    rcases mem_updateTask ht with ⟨a, ha, hila, rfl⟩ | ⟨ha, _⟩
    · simp at hidt
      rw [hidt] at hila
      exact absurd (hila ▸ htid') hnq
    · exact hs.queueStatus tid' htid' t ha hidt

theorem stateInv_cancel {s : SchedState} (hs : StateInv s) (u : String) (tid : Nat) :
    StateInv (handleCancel s u tid) := by
  unfold handleCancel
  cases hfind : s.tasks.find? (fun t => t.taskId == tid) with
  | none =>
    exact ⟨hs.activeBound, fun t ht => (hs.taskInv t ht).mono (by simp),
      hs.idBound, hs.idsInj, hs.queueNodup, hs.queueBound,
      hs.queuedInQueue, hs.queueStatus⟩
  | some t₁ =>
    dsimp only
    by_cases howner : t₁.owner ≠ u
    · rw [if_pos howner]
      exact ⟨hs.activeBound, fun t ht => (hs.taskInv t ht).mono (by simp),
        hs.idBound, hs.idsInj, hs.queueNodup, hs.queueBound,
        hs.queuedInQueue, hs.queueStatus⟩
    · rw [if_neg howner]
      by_cases hterm : t₁.status.isTerminal = true
      · rw [if_pos hterm]
        exact ⟨hs.activeBound, fun t ht => (hs.taskInv t ht).mono (by simp),
          hs.idBound, hs.idsInj, hs.queueNodup, hs.queueBound,
          hs.queuedInQueue, hs.queueStatus⟩
      · rw [if_neg hterm]
        by_cases hq : t₁.status = TaskStatus.queued
        · rw [if_pos hq]
          exact stateInv_cancel_queued hs hfind hq
        · rw [if_neg hq]
          have hrun : t₁.status = TaskStatus.running ∨ t₁.status = TaskStatus.canceling := by
            cases hsts : t₁.status <;> simp [hsts, TaskStatus.isTerminal] at hterm hq ⊢
          exact stateInv_cancel_running hs hfind hrun

theorem isActive_of_isTerminal (st : TaskStatus) :
    st.isTerminal = true → st.isActive = false := by
  cases st <;> simp [TaskStatus.isTerminal, TaskStatus.isActive]

theorem stateInv_dequeue_drain {s : SchedState} (hs : StateInv s) {tid : Nat}
    {rest : List Nat} {t₁ : SchedTask} (hq : s.queue = tid :: rest)
    (hfind : s.tasks.find? (fun t => t.taskId == tid) = some t₁)
    (hcr : t₁.cancelRequested = true) :
    StateInv ⟨updateTask s.tasks tid (fun t0 =>
        { t0 with status := TaskStatus.canceled, finishedAt := some s.clock,
                  finishedWrites := t0.finishedWrites + 1 }),
      rest, s.clock + 1, s.nextId⟩ := by
  obtain ⟨hmem₁, hid₁⟩ := find?_task_mem hfind
  have hone : ∀ t ∈ s.tasks, t.taskId = tid → t = t₁ := by
    intro t ht hid
    exact hs.idsInj t ht t₁ hmem₁ (by rw [hid, hid₁])
  have hinv₁ := hs.taskInv t₁ hmem₁
  have htidq : tid ∈ s.queue := by rw [hq]; simp
  have hnodup : ¬ tid ∈ rest := by
    have := hs.queueNodup
    rw [hq] at this
    exact (List.nodup_cons.mp this).1
  rcases hs.queueStatus tid htidq t₁ hmem₁ hid₁ with hqq | ⟨hc₁, _, hst₁, hw₁⟩
  · obtain ⟨_, _, hcr'⟩ := hinv₁.queued_clean hqq
    rw [hcr'] at hcr
    exact absurd hcr (by simp)
  constructor
  case activeBound =>
    intro u
    refine Nat.le_trans (countP_updateTask_le ?_) (hs.activeBound u)
    intro t _ _ hp
    simp [activeFor, TaskStatus.isActive] at hp
  case taskInv =>
    intro t ht
    dsimp only at ht ⊢
    rcases mem_updateTask ht with ⟨a, ha, hila, rfl⟩ | ⟨ha, _⟩
    · have haeq : a = t₁ := hone a ha hila
      subst haeq
      refine ⟨by have := hinv₁.created_le; simp; omega, ?_, ?_, ?_, ?_, ?_, ?_, ?_, ?_, ?_, ?_, ?_⟩
      · intro st hst
        simp [hst₁] at hst
      · intro f hf
        simp at hf
        subst hf
        refine ⟨hinv₁.created_le, by omega, ?_⟩
        intro st hst
        simp [hst₁] at hst
      · simpa using hinv₁.startedW_le
      · simpa [hst₁, hw₁] using hinv₁.started_iff
      · simp [TaskStatus.isTerminal]
      · simp [hw₁]
      · simp [hw₁]
      · intro
        exact ⟨rfl, by simpa using hst₁⟩
      · simp
      · simp
      · simp
    · exact (hs.taskInv t ha).mono (by simp)
  case idBound =>
    intro t ht
    exact updateTask_idBound hs.idBound (by intro x; rfl) t ht
  case idsInj =>
    exact updateTask_idsInj hs.idsInj (by intro x; rfl)
  case queueNodup =>
    have := hs.queueNodup
    rw [hq] at this
    exact (List.nodup_cons.mp this).2
  case queueBound =>
    intro tid' htid'
    exact hs.queueBound tid' (by rw [hq]; simp [htid'])
  case queuedInQueue =>
    intro t ht hqt
    dsimp only at ht ⊢
    rcases mem_updateTask ht with ⟨a, _, _, rfl⟩ | ⟨ha, hna⟩
    · simp at hqt
    · have := hs.queuedInQueue t ha hqt
      rw [hq] at this
      rcases List.mem_cons.mp this with heq | hmem
      · exact absurd heq hna
      · exact hmem
  case queueStatus =>
    intro tid' htid' t ht hidt
    dsimp only at ht htid' ⊢
    rcases mem_updateTask ht with ⟨a, ha, hila, rfl⟩ | ⟨ha, _⟩
    · simp at hidt
      rw [hidt] at hila
      rw [hila] at htid'
      exact absurd htid' hnodup
    · exact hs.queueStatus tid' (by rw [hq]; simp [htid']) t ha hidt

theorem stateInv_dequeue_run {s : SchedState} (hs : StateInv s) {tid : Nat}
    {rest : List Nat} {t₁ : SchedTask} (hq : s.queue = tid :: rest)
    (hfind : s.tasks.find? (fun t => t.taskId == tid) = some t₁)
    (hcr : t₁.cancelRequested = false) :
    StateInv ⟨updateTask s.tasks tid (fun t0 =>
        { t0 with status := TaskStatus.running, startedAt := some s.clock,
                  startedWrites := t0.startedWrites + 1 }),
      rest, s.clock + 1, s.nextId⟩ := by
  obtain ⟨hmem₁, hid₁⟩ := find?_task_mem hfind
  have hone : ∀ t ∈ s.tasks, t.taskId = tid → t = t₁ := by
    intro t ht hid
    exact hs.idsInj t ht t₁ hmem₁ (by rw [hid, hid₁])
  have hinv₁ := hs.taskInv t₁ hmem₁
  have htidq : tid ∈ s.queue := by rw [hq]; simp
  have hnodup : ¬ tid ∈ rest := by
    have := hs.queueNodup
    rw [hq] at this
    exact (List.nodup_cons.mp this).1
  have hq₁ : t₁.status = TaskStatus.queued := by
    rcases hs.queueStatus tid htidq t₁ hmem₁ hid₁ with hqq | ⟨_, hcr', _, _⟩
    · exact hqq
    · rw [hcr'] at hcr
      exact absurd hcr (by simp)
  obtain ⟨hst₁, hfin₁, _⟩ := hinv₁.queued_clean hq₁
  have hsw₁ : t₁.startedWrites = 0 := by
    have := hinv₁.started_iff
    rw [hst₁] at this
    simp at this
    have hle := hinv₁.startedW_le
    omega
  have hfw₁ : t₁.finishedWrites = 0 := hinv₁.finishedW_iff.mp hfin₁
  constructor
  case activeBound =>
    intro u
    refine Nat.le_trans (countP_updateTask_le ?_) (hs.activeBound u)
    intro t ht hidt hp
    have := hone t ht hidt
    subst this
    simpa [activeFor, TaskStatus.isActive, hq₁] using hp
  case taskInv =>
    intro t ht
    dsimp only at ht ⊢
    rcases mem_updateTask ht with ⟨a, ha, hila, rfl⟩ | ⟨ha, _⟩
    · have haeq : a = t₁ := hone a ha hila
      subst haeq
      refine ⟨by have := hinv₁.created_le; simp; omega, ?_, ?_, ?_, ?_, ?_, ?_, ?_, ?_, ?_, ?_, ?_⟩
      · intro st hst
        simp at hst
        subst hst
        exact ⟨hinv₁.created_le, by omega⟩
      · intro f hf
        simp [hfin₁] at hf
      · simp [hsw₁]
      · simp [hsw₁]
      · simp [hfin₁, TaskStatus.isTerminal]
      · simp [hfin₁, hfw₁]
      · simp [hfw₁]
      · simp [hfw₁]
      · simp
      · intro
        exact ⟨by simp, by simpa using hfin₁⟩
      · simp
    · exact (hs.taskInv t ha).mono (by simp)
  case idBound =>
    intro t ht
    exact updateTask_idBound hs.idBound (by intro x; rfl) t ht
  case idsInj =>
    exact updateTask_idsInj hs.idsInj (by intro x; rfl)
  case queueNodup =>
    have := hs.queueNodup
    rw [hq] at this
    exact (List.nodup_cons.mp this).2
  case queueBound =>
    intro tid' htid'
    exact hs.queueBound tid' (by rw [hq]; simp [htid'])
  case queuedInQueue =>
    intro t ht hqt
    dsimp only at ht ⊢
    rcases mem_updateTask ht with ⟨a, _, _, rfl⟩ | ⟨ha, hna⟩
    · simp at hqt
    · have := hs.queuedInQueue t ha hqt
      rw [hq] at this
      rcases List.mem_cons.mp this with heq | hmem
      · exact absurd heq hna
      · exact hmem
  case queueStatus =>
    intro tid' htid' t ht hidt
    dsimp only at ht htid' ⊢
    rcases mem_updateTask ht with ⟨a, ha, hila, rfl⟩ | ⟨ha, _⟩
    · simp at hidt
      rw [hidt] at hila
      rw [hila] at htid'
      exact absurd htid' hnodup
    · exact hs.queueStatus tid' (by rw [hq]; simp [htid']) t ha hidt

theorem stateInv_dequeue {s : SchedState} (hs : StateInv s) :
    StateInv (dequeueStep s) := by
  unfold dequeueStep
  cases hq : s.queue with
  | nil => exact hs
  | cons tid rest =>
    dsimp only
    cases hfind : s.tasks.find? (fun t => t.taskId == tid) with
    | none =>
      dsimp only
      have hnid : ∀ t ∈ s.tasks, ¬ t.taskId = tid := by
        intro t ht
        have := List.find?_eq_none.mp hfind t ht
        simpa using this
      constructor
      case activeBound => exact hs.activeBound
      case taskInv =>
        intro t ht
        exact (hs.taskInv t ht).mono (by simp)
      case idBound => exact hs.idBound
      case idsInj => exact hs.idsInj
      case queueNodup =>
        have := hs.queueNodup
        rw [hq] at this
        exact (List.nodup_cons.mp this).2
      case queueBound =>
        intro tid' htid'
        exact hs.queueBound tid' (by rw [hq]; simp [htid'])
      case queuedInQueue =>
        intro t ht hqt
        have := hs.queuedInQueue t ht hqt
        rw [hq] at this
        rcases List.mem_cons.mp this with heq | hmem
        · exact absurd heq (hnid t ht)
        · exact hmem
      case queueStatus =>
        intro tid' htid' t ht hidt
        exact hs.queueStatus tid' (by rw [hq]; simp [htid']) t ht hidt
    | some t₁ =>
      dsimp only
      by_cases hcr : t₁.cancelRequested = true
      · rw [if_pos hcr]
        exact stateInv_dequeue_drain hs hq hfind hcr
      · rw [if_neg hcr]
        rw [Bool.not_eq_true] at hcr
        exact stateInv_dequeue_run hs hq hfind hcr

theorem stateInv_finish_run {s : SchedState} (hs : StateInv s) {tid : Nat}
    {t₁ : SchedTask} {outcome : TaskStatus}
    (hfind : s.tasks.find? (fun t => t.taskId == tid) = some t₁)
    (hrun : t₁.status = TaskStatus.running ∨ t₁.status = TaskStatus.canceling)
    (hterm : outcome.isTerminal = true) :
    StateInv ⟨updateTask s.tasks tid (fun t0 =>
        { t0 with status := outcome, finishedAt := some s.clock,
                  finishedWrites := t0.finishedWrites + 1 }),
      s.queue, s.clock + 1, s.nextId⟩ := by
  obtain ⟨hmem₁, hid₁⟩ := find?_task_mem hfind
  have hone : ∀ t ∈ s.tasks, t.taskId = tid → t = t₁ := by
    intro t ht hid
    exact hs.idsInj t ht t₁ hmem₁ (by rw [hid, hid₁])
  have hinv₁ := hs.taskInv t₁ hmem₁
  obtain ⟨hst₁, hfin₁⟩ := hinv₁.run_started hrun
  have hfw₁ : t₁.finishedWrites = 0 := hinv₁.finishedW_iff.mp hfin₁
  have hnq : tid ∉ s.queue := by
    intro hmemq
    have hqs := hs.queueStatus tid hmemq t₁ hmem₁ hid₁
    rcases hrun with h | h <;> rcases hqs with hqq | ⟨hqc, _⟩ <;> simp_all
  constructor
  case activeBound =>
    intro u
    refine Nat.le_trans (countP_updateTask_le ?_) (hs.activeBound u)
    intro t _ _ hp
    simp [activeFor, isActive_of_isTerminal outcome hterm] at hp
  case taskInv =>
    intro t ht
    dsimp only at ht ⊢
    rcases mem_updateTask ht with ⟨a, ha, hila, rfl⟩ | ⟨ha, _⟩
    · have haeq : a = t₁ := hone a ha hila
      subst haeq
      refine ⟨by have := hinv₁.created_le; simp; omega, ?_, ?_, ?_, ?_, ?_, ?_, ?_, ?_, ?_, ?_, ?_⟩
      · intro st hst
        simp at hst
        obtain ⟨h1, h2⟩ := hinv₁.started_le st hst
        exact ⟨h1, by omega⟩
      · intro f hf
        simp at hf
        subst hf
        refine ⟨hinv₁.created_le, by omega, ?_⟩
        intro st hst
        simp at hst
        exact (hinv₁.started_le st hst).2
      · simpa using hinv₁.startedW_le
      · simpa using hinv₁.started_iff
      · simp [hterm]
      · simp [hfw₁]
      · simp [hfw₁]
      · simp [hfw₁]
      · intro
        simpa using hst₁
      · intro hro
        exfalso
        rcases hro with h | h <;>
          (simp at h; subst h; simp [TaskStatus.isTerminal] at hterm)
      · intro hqo
        exfalso
        simp at hqo
        rw [hqo] at hterm
        simp [TaskStatus.isTerminal] at hterm
    · exact (hs.taskInv t ha).mono (by simp)
  case idBound =>
    intro t ht
    exact updateTask_idBound hs.idBound (by intro x; rfl) t ht
  case idsInj =>
    exact updateTask_idsInj hs.idsInj (by intro x; rfl)
  case queueNodup => exact hs.queueNodup
  case queueBound => exact hs.queueBound
  case queuedInQueue =>
    intro t ht hqt
    dsimp only at ht ⊢
    rcases mem_updateTask ht with ⟨a, _, _, rfl⟩ | ⟨ha, _⟩
    · simp at hqt
      rw [hqt] at hterm
      simp [TaskStatus.isTerminal] at hterm
    · exact hs.queuedInQueue t ha hqt
  case queueStatus =>
    intro tid' htid' t ht hidt
    dsimp only at ht htid' ⊢
    rcases mem_updateTask ht with ⟨a, ha, hila, rfl⟩ | ⟨ha, _⟩
    · simp at hidt
      rw [hidt] at hila
      exact absurd (hila ▸ htid') hnq
    · exact hs.queueStatus tid' htid' t ha hidt

theorem stateInv_finish {s : SchedState} (hs : StateInv s) (tid : Nat)
    (outcome : TaskStatus) : StateInv (finishStep s tid outcome) := by
  unfold finishStep
  cases hfind : s.tasks.find? (fun t => t.taskId == tid) with
  | none =>
    exact ⟨hs.activeBound, fun t ht => (hs.taskInv t ht).mono (by simp),
      hs.idBound, hs.idsInj, hs.queueNodup, hs.queueBound,
      hs.queuedInQueue, hs.queueStatus⟩
  | some t₁ =>
    dsimp only
    by_cases hg : (t₁.status = TaskStatus.running ∨ t₁.status = TaskStatus.canceling) ∧
        outcome.isTerminal = true
    · rw [if_pos hg]
      exact stateInv_finish_run hs hfind hg.1 hg.2
    · rw [if_neg hg]
      exact ⟨hs.activeBound, fun t ht => (hs.taskInv t ht).mono (by simp),
        hs.idBound, hs.idsInj, hs.queueNodup, hs.queueBound,
        hs.queuedInQueue, hs.queueStatus⟩

theorem stateInv_cleanup {s : SchedState} (hs : StateInv s) (tid : Nat) :
    StateInv (cleanupStep s tid) := by
  unfold cleanupStep
  constructor
  case activeBound =>
    intro u
    refine Nat.le_trans ?_ (hs.activeBound u)
    exact (List.filter_sublist _).countP_le _
  case taskInv =>
    intro t ht
    exact (hs.taskInv t (List.mem_of_mem_filter ht)).mono (by simp)
  case idBound =>
    intro t ht
    exact hs.idBound t (List.mem_of_mem_filter ht)
  case idsInj =>
    intro t ht t' ht' hid
    exact hs.idsInj t (List.mem_of_mem_filter ht) t' (List.mem_of_mem_filter ht') hid
  case queueNodup => exact hs.queueNodup
  case queueBound => exact hs.queueBound
  case queuedInQueue =>
    intro t ht hqt
    exact hs.queuedInQueue t (List.mem_of_mem_filter ht) hqt
  case queueStatus =>
    intro tid' htid' t ht hidt
    exact hs.queueStatus tid' htid' t (List.mem_of_mem_filter ht) hidt

theorem stateInv_step {s s' : SchedState} (hs : StateInv s) (h : SchedStep s s') :
    StateInv s' := by
  cases h with
  | start u => exact stateInv_start hs u
  | cancel u tid => exact stateInv_cancel hs u tid
  | dequeue => exact stateInv_dequeue hs
  | finish tid o => exact stateInv_finish hs tid o
  | cleanup tid => exact stateInv_cleanup hs tid

/-- Every reachable scheduler state satisfies the global invariant. -/
theorem schedReachable_inv {s : SchedState} (h : SchedReachable s) : StateInv s := by
  induction h with
  | init => exact stateInv_init
  | step _ hstep ih => exact stateInv_step ih hstep

/-- C4 (counterexample): with a login-page key present and a server that
rejects every encoding, `analyze_network_request` performs 8 login POSTs —
not at most 3 as the claim states. -/
theorem c4_counterexample :
    loginAttempts "p" (some "k") (fun _ => false) = 8 ∧ ¬ (8 ≤ 3) := by
  constructor
  · decide
  · omega

/-- C4 (amended): session establishment makes at most 8 total login
attempts across distinct credential encodings (at most 4 when no key was
obtained from the login page) before declaring authentication failure. -/
theorem c4_amended (password : String) (key : Option String)
    (classify : PwCandidate → Bool) :
    loginAttempts password key classify ≤ 8 ∧
    (key = none → loginAttempts password key classify ≤ 4) := by
  have h := loginAttempts_le password key classify
  rw [generatePasswordHash_length] at h
  constructor
  · cases key <;> simp at h <;> omega
  · intro hk
    subst hk
    simp at h
    omega

theorem c4_amended_witness :
    loginAttempts "p" none (fun _ => false) ≤ 8 ∧
    loginAttempts "p" none (fun _ => false) ≤ 4 :=
  ⟨(c4_amended "p" none (fun _ => false)).1,
   (c4_amended "p" none (fun _ => false)).2 rfl⟩

/-- C5 (counterexample): the four key combinations are not "two digest
algorithms, each in both orders": with password `"a"` and key `"b"` the
tail of the candidate list is `[md5(pw+key), md5(key+pw), sha1(pw+key),
sha256(pw+key)]`, which matches no choice of two digests each applied to
both concatenation orders. -/
theorem c5_counterexample :
    ¬ ∃ d1 d2 : Digest,
      (generatePasswordHash "a" (some "b")).drop 4 =
        [PwCandidate.hashed d1 ("a" ++ "b"), PwCandidate.hashed d1 ("b" ++ "a"),
         PwCandidate.hashed d2 ("a" ++ "b"), PwCandidate.hashed d2 ("b" ++ "a")] := by
  rintro ⟨d1, d2, h⟩
  cases d1 <;> cases d2 <;> simp [generatePasswordHash] at h

/-- C5 (amended): the negotiation tries, in order, plaintext, then MD5,
SHA1, SHA256 of the password (hex outputs of increasing size 32 < 40 < 64),
then — only when a key was obtained — `md5(pw+key)`, `md5(key+pw)`,
`sha1(pw+key)`, `sha256(pw+key)` (both orders under MD5 only, secret-then-
key under SHA1 and SHA256); the first encoding classified as successful
wins, and the negotiation fails only after every candidate was rejected. -/
theorem c5_amended (pw k : String) (classify : PwCandidate → Bool) :
    generatePasswordHash pw (some k) =
      [PwCandidate.plain pw, PwCandidate.hashed .md5 pw,
       PwCandidate.hashed .sha1 pw, PwCandidate.hashed .sha256 pw,
       PwCandidate.hashed .md5 (pw ++ k), PwCandidate.hashed .md5 (k ++ pw),
       PwCandidate.hashed .sha1 (pw ++ k), PwCandidate.hashed .sha256 (pw ++ k)] ∧
    generatePasswordHash pw none =
      [PwCandidate.plain pw, PwCandidate.hashed .md5 pw,
       PwCandidate.hashed .sha1 pw, PwCandidate.hashed .sha256 pw] ∧
    Digest.hexLen .md5 < Digest.hexLen .sha1 ∧
    Digest.hexLen .sha1 < Digest.hexLen .sha256 ∧
    (∀ key i, tryCandidates classify (generatePasswordHash pw key) = some i →
      analyzeNetworkRequest pw key classify = true ∧
      ∃ c, (generatePasswordHash pw key)[i]? = some c ∧ classify c = true ∧
        ∀ j, j < i → ∀ c', (generatePasswordHash pw key)[j]? = some c' →
          classify c' = false) ∧
    (∀ key, tryCandidates classify (generatePasswordHash pw key) = none →
      analyzeNetworkRequest pw key classify = false ∧
      ∀ c ∈ generatePasswordHash pw key, classify c = false) := by
  refine ⟨rfl, rfl, by decide, by decide, ?_, ?_⟩
  · intro key i h
    refine ⟨by simp [analyzeNetworkRequest, h], tryCandidates_spec classify _ i h⟩
  · intro key h
    refine ⟨by simp [analyzeNetworkRequest, h], tryCandidates_none classify _ h⟩

theorem c5_amended_witness :
    analyzeNetworkRequest "a" (some "b")
      (fun c => c == PwCandidate.plain "a") = true ∧
    ∃ c, (generatePasswordHash "a" (some "b"))[0]? = some c ∧
      (c == PwCandidate.plain "a") = true ∧
      ∀ j, j < 0 → ∀ c', (generatePasswordHash "a" (some "b"))[j]? = some c' →
        (c' == PwCandidate.plain "a") = false :=
  (c5_amended "a" "b" (fun c => c == PwCandidate.plain "a")).2.2.2.2.1
    (some "b") 0 (by decide)

/-- C6: within one pipeline run, three consecutive Oracle-level failures
disable the Oracle; once disabled, a question absent from the local bank
resolves to `none` with zero Oracle POSTs; a successful answer resets the
consecutive-failure count to zero. -/
theorem c6_oracle_disable (s : ApiState) (bank : List BankEntry) (q : String)
    (o1 o2 o3 o : ApiOutcome) (answer : String)
    (havail : s.apiAvailable = true) (hcnt : s.apiErrorCount = 0)
    (h1 : o1.isErr = true) (h2 : o2.isErr = true) (h3 : o3.isErr = true)
    (hq : bankLookup bank q = none) :
    ((apiSearch (apiSearch (apiSearch s o1).1 o2).1 o3).1.apiAvailable = false) ∧
    (∀ s' : ApiState, s'.apiAvailable = false →
      findAnswer bank q s' o = (s', none, 0)) ∧
    (∀ e', e' < 3 →
      apiSearch ⟨true, e'⟩ (ApiOutcome.ok answer) = (⟨true, 0⟩, some answer, 1)) := by
  obtain ⟨a, e⟩ := s
  simp only at havail hcnt
  subst havail
  subst hcnt
  refine ⟨?_, ?_, ?_⟩
  · cases o1 <;> cases o2 <;> cases o3 <;>
      simp_all [apiSearch, ApiOutcome.isErr]
  · intro s' hs'
    simp [findAnswer, hq, apiSearch, hs']
  · intro e' he'
    have : ¬ 3 ≤ e' := by omega
    simp [apiSearch, this]

theorem c6_oracle_disable_witness :
    ((apiSearch (apiSearch (apiSearch ⟨true, 0⟩ ApiOutcome.netErr).1
        ApiOutcome.netErr).1 ApiOutcome.netErr).1.apiAvailable = false) ∧
    findAnswer [] "x" ⟨false, 3⟩ ApiOutcome.netErr = (⟨false, 3⟩, none, 0) ∧
    apiSearch ⟨true, 2⟩ (ApiOutcome.ok "A") = (⟨true, 0⟩, some "A", 1) := by
  have h := c6_oracle_disable ⟨true, 0⟩ [] "x" ApiOutcome.netErr ApiOutcome.netErr
    ApiOutcome.netErr ApiOutcome.netErr "A" rfl rfl rfl rfl rfl rfl
  exact ⟨h.1, h.2.1 ⟨false, 3⟩ rfl, h.2.2 2 (by omega)⟩

/-- C7 (counterexample): the pipeline's answer resolution
(`QuizBot.find_answer` via `QuizBot.api_search`) performs exactly one
Oracle POST for a question absent from the bank whose call times out, and
treats the question as unresolved immediately — it is not retried. -/
theorem c7_counterexample :
    findAnswer [] "q" ⟨true, 0⟩ ApiOutcome.netErr = (⟨true, 1⟩, none, 1) := by
  decide

/-- C7 (amended): the pipeline's Oracle lookup makes at most one POST per
question (failures feed the consecutive-error counter instead of being
retried); the retry-up-to-3 logic on timeout, connection failure or
malformed response lives in the standalone `APIClient.search_answer`, which
the quiz pipeline does not invoke. -/
theorem c7_amended (bank : List BankEntry) (q : String) (s : ApiState)
    (o : ApiOutcome) (outcomes : Nat → AttemptOutcome) (a : String) :
    (findAnswer bank q s o).2.2 ≤ 1 ∧
    (searchAnswer outcomes).2 ≤ 3 ∧
    (searchAnswer (fun _ => AttemptOutcome.timeout) = (none, 3)) ∧
    (searchAnswer (fun _ => AttemptOutcome.connErr) = (none, 3)) ∧
    (searchAnswer (fun _ => AttemptOutcome.badJson) = (none, 3)) ∧
    (outcomes 0 = AttemptOutcome.okRecognized a →
      searchAnswer outcomes = (some a, 1)) := by
  refine ⟨?_, searchAnswerGo_le outcomes 3 0, by decide, by decide, by decide, ?_⟩
  · unfold findAnswer
    cases hbl : bankLookup bank q with
    | some a' => simp
    | none =>
      unfold apiSearch
      by_cases hav : s.apiAvailable = false
      · simp [hav]
      · simp only [hav, if_false]
        by_cases hcnt : 3 ≤ s.apiErrorCount
        · simp [hcnt]
        · simp only [hcnt, if_false]
          cases o <;> simp
  · intro h0
    show searchAnswerGo outcomes 3 0 = (some a, 1)
    rw [show (3 : Nat) = Nat.succ 2 from rfl]
    rw [searchAnswerGo]
    rw [h0]

theorem c7_amended_witness :
    (findAnswer [] "q" ⟨true, 0⟩ ApiOutcome.netErr).2.2 ≤ 1 ∧
    searchAnswer (fun _ => AttemptOutcome.okRecognized "B") = (some "B", 1) := by
  have h := c7_amended [] "q" ⟨true, 0⟩ ApiOutcome.netErr
    (fun _ => AttemptOutcome.okRecognized "B") "B"
  exact ⟨h.1, h.2.2.2.2.2 rfl⟩

/-- C1: in every reachable scheduler state each user owns at most one task
whose status is queued or running, and a start request issued while the
user has such an active task returns the stable busy message and leaves the
task registry and queue untouched (no task is created or enqueued). -/
theorem c1_single_active_task (s : SchedState) (h : SchedReachable s) :
    (∀ u, activeCount s u ≤ 1) ∧
    (∀ u, hasActiveTask s u = true →
      handleStart s u = (s, false, busyMessage)) := by
  refine ⟨(schedReachable_inv h).activeBound, ?_⟩
  intro u hu
  simp [handleStart, hu]

theorem c1_single_active_task_witness :
    activeCount (handleStart initSched "u1").1 "u1" ≤ 1 ∧
    handleStart (handleStart initSched "u1").1 "u1" =
      ((handleStart initSched "u1").1, false, busyMessage) := by
  have hr : SchedReachable (handleStart initSched "u1").1 :=
    SchedReachable.step SchedReachable.init (SchedStep.start initSched "u1")
  have hc := c1_single_active_task _ hr
  exact ⟨hc.1 "u1", hc.2 "u1" (by decide)⟩

/-- C8 (counterexample): the trace submit, cancel-while-queued, worker
drain is reachable and leaves a terminal (`canceled`) task whose
`started_at` was never assigned (`startedWrites = 0`, `startedAt = none`)
and whose `finished_at` was assigned twice (`finishedWrites = 2`) — so
neither "each timestamp is set exactly once" nor
"finished_at ≥ started_at ≥ created_at" holds for every terminal job. -/
theorem c8_counterexample :
    SchedReachable
      (dequeueStep (handleCancel (handleStart initSched "u").1 "u" 0)) ∧
    (dequeueStep (handleCancel (handleStart initSched "u").1 "u" 0)).tasks =
      [⟨0, "u", TaskStatus.canceled, 0, none, some 2, true, 0, 2⟩] := by
  constructor
  · exact SchedReachable.step
      (SchedReachable.step
        (SchedReachable.step SchedReachable.init (SchedStep.start initSched "u"))
        (SchedStep.cancel _ "u" 0))
      (SchedStep.dequeue _)
  · decide

/-- C8 (amended): in every reachable state, `created_at` is set once at
creation and `started_at` at most once; a terminal task has a `finished_at`
not below `created_at` and not below `started_at` when the latter is set; a
`completed` or `failed` task set `started_at` exactly once and
`finished_at` exactly once; `finished_at` is written at most twice, and a
second write happens only for a task canceled while still queued (which
never set `started_at`); the terminal statuses are exactly
`{completed, failed, canceled}`. -/
theorem c8_amended (s : SchedState) (h : SchedReachable s) :
    ∀ t ∈ s.tasks,
      t.startedWrites ≤ 1 ∧
      (t.status.isTerminal = true →
        ∃ f, t.finishedAt = some f ∧ t.createdAt ≤ f ∧
          ∀ st, t.startedAt = some st → t.createdAt ≤ st ∧ st ≤ f) ∧
      ((t.status = TaskStatus.completed ∨ t.status = TaskStatus.failed) →
        t.startedAt.isSome = true ∧ t.startedWrites = 1 ∧ t.finishedWrites = 1) ∧
      (t.finishedWrites = 2 →
        t.status = TaskStatus.canceled ∧ t.startedAt = none) ∧
      t.finishedWrites ≤ 2 ∧
      (t.status.isTerminal = true ↔
        (t.status = TaskStatus.completed ∨ t.status = TaskStatus.failed ∨
         t.status = TaskStatus.canceled)) := by
  intro t ht
  have hi := (schedReachable_inv h).taskInv t ht
  refine ⟨hi.startedW_le, ?_, ?_, hi.finishedW_two, hi.finishedW_le, ?_⟩
  · intro hterm
    have hfin : t.finishedAt.isSome = true := hi.finished_iff.mpr hterm
    obtain ⟨f, hf⟩ := Option.isSome_iff_exists.mp hfin
    obtain ⟨hc1, _, hc3⟩ := hi.finished_le f hf
    exact ⟨f, hf, hc1, fun st hst => ⟨(hi.started_le st hst).1, hc3 st hst⟩⟩
  · intro hdone
    have hsome := hi.done_started hdone
    refine ⟨hsome, hi.started_iff.mp hsome, ?_⟩
    have hterm : t.status.isTerminal = true := by
      rcases hdone with hst | hst <;> simp [hst, TaskStatus.isTerminal]
    have hfin : t.finishedAt.isSome = true := hi.finished_iff.mpr hterm
    have h0 : ¬ t.finishedWrites = 0 := by
      intro hw
      rw [hi.finishedW_iff.mpr hw] at hfin
      simp at hfin
    have h2 : ¬ t.finishedWrites = 2 := by
      intro hw
      have := (hi.finishedW_two hw).1
      rcases hdone with hst | hst <;> rw [hst] at this <;> simp at this
    have := hi.finishedW_le
    omega
  · cases hsts : t.status <;> simp [TaskStatus.isTerminal]

theorem c8_amended_witness :
    (finishStep (dequeueStep (handleStart initSched "u").1) 0
        TaskStatus.completed).tasks =
      [⟨0, "u", TaskStatus.completed, 0, some 1, some 2, false, 1, 1⟩] ∧
    ((⟨0, "u", TaskStatus.completed, 0, some 1, some 2, false, 1, 1⟩ :
        SchedTask).startedWrites ≤ 1 ∧
      ((⟨0, "u", TaskStatus.completed, 0, some 1, some 2, false, 1, 1⟩ :
          SchedTask).status.isTerminal = true →
        ∃ f, (⟨0, "u", TaskStatus.completed, 0, some 1, some 2, false, 1, 1⟩ :
            SchedTask).finishedAt = some f ∧
          (⟨0, "u", TaskStatus.completed, 0, some 1, some 2, false, 1, 1⟩ :
            SchedTask).createdAt ≤ f ∧
          ∀ st, (⟨0, "u", TaskStatus.completed, 0, some 1, some 2, false, 1, 1⟩ :
              SchedTask).startedAt = some st →
            (⟨0, "u", TaskStatus.completed, 0, some 1, some 2, false, 1, 1⟩ :
              SchedTask).createdAt ≤ st ∧ st ≤ f) ∧
      (((⟨0, "u", TaskStatus.completed, 0, some 1, some 2, false, 1, 1⟩ :
          SchedTask).status = TaskStatus.completed ∨
        (⟨0, "u", TaskStatus.completed, 0, some 1, some 2, false, 1, 1⟩ :
          SchedTask).status = TaskStatus.failed) →
        (⟨0, "u", TaskStatus.completed, 0, some 1, some 2, false, 1, 1⟩ :
          SchedTask).startedAt.isSome = true ∧
        (⟨0, "u", TaskStatus.completed, 0, some 1, some 2, false, 1, 1⟩ :
          SchedTask).startedWrites = 1 ∧
        (⟨0, "u", TaskStatus.completed, 0, some 1, some 2, false, 1, 1⟩ :
          SchedTask).finishedWrites = 1) ∧
      ((⟨0, "u", TaskStatus.completed, 0, some 1, some 2, false, 1, 1⟩ :
          SchedTask).finishedWrites = 2 →
        (⟨0, "u", TaskStatus.completed, 0, some 1, some 2, false, 1, 1⟩ :
          SchedTask).status = TaskStatus.canceled ∧
        (⟨0, "u", TaskStatus.completed, 0, some 1, some 2, false, 1, 1⟩ :
          SchedTask).startedAt = none) ∧
      (⟨0, "u", TaskStatus.completed, 0, some 1, some 2, false, 1, 1⟩ :
        SchedTask).finishedWrites ≤ 2 ∧
      ((⟨0, "u", TaskStatus.completed, 0, some 1, some 2, false, 1, 1⟩ :
          SchedTask).status.isTerminal = true ↔
        ((⟨0, "u", TaskStatus.completed, 0, some 1, some 2, false, 1, 1⟩ :
            SchedTask).status = TaskStatus.completed ∨
         (⟨0, "u", TaskStatus.completed, 0, some 1, some 2, false, 1, 1⟩ :
            SchedTask).status = TaskStatus.failed ∨
         (⟨0, "u", TaskStatus.completed, 0, some 1, some 2, false, 1, 1⟩ :
            SchedTask).status = TaskStatus.canceled))) := by
  have hr : SchedReachable
      (finishStep (dequeueStep (handleStart initSched "u").1) 0
        TaskStatus.completed) :=
    SchedReachable.step
      (SchedReachable.step
        (SchedReachable.step SchedReachable.init (SchedStep.start initSched "u"))
        (SchedStep.dequeue _))
      (SchedStep.finish _ 0 TaskStatus.completed)
  refine ⟨by decide, ?_⟩
  exact c8_amended _ hr _ (by decide)

theorem scanQuestions_len_answered (qs : List PipeQuestion) :
    ∀ st ad, ad.length = st.answered →
      (scanQuestionsAux st ad qs).2.length = (scanQuestionsAux st ad qs).1.answered := by
  induction qs with
  | nil => intro st ad h; simpa [scanQuestionsAux] using h
  | cons q rest ih =>
    intro st ad h
    rw [scanQuestionsAux]
    by_cases htl : q.hasTitle = false
    · rw [if_pos htl]
      exact ih st ad h
    · rw [if_neg htl]
      cases hfa : q.foundAnswer with
      | some a =>
        cases hni : q.inputName with
        | some nm => exact ih _ _ (by simp [h])
        | none => exact ih _ ad (by simp [h])
      | none => exact ih _ ad (by simp [h])

/-- C2 (counterexample): non-strict mode, minimum-answer-rate 0, submission
enabled, one titled question with no resolved answer: the coverage 0/1 is
not below the threshold, yet no submission POST is made — the report ends
with "未生成任何答案" because the answer data is empty. -/
theorem c2_counterexample :
    (autoAnswerWithReport ⟨true, true, [⟨true, none, none, false⟩], 200⟩
        true false 0).submitCalled = false ∧
    (autoAnswerWithReport ⟨true, true, [⟨true, none, none, false⟩], 200⟩
        true false 0).message = "未生成任何答案" ∧
    (autoAnswerWithReport ⟨true, true, [⟨true, none, none, false⟩], 200⟩
        true false 0).stats.total = 1 ∧
    (autoAnswerWithReport ⟨true, true, [⟨true, none, none, false⟩], 200⟩
        true false 0).stats.answered = 0 ∧
    ¬ (((0 : ℕ) : ℚ) / ((1 : ℕ) : ℚ) < 0) := by
  refine ⟨?_, ?_, ?_, ?_, by norm_num⟩ <;>
    simp [autoAnswerWithReport, scanQuestions, scanQuestionsAux, zeroStats]

/-- C2 (amended): for a chapter whose fetched question set has
`total > 0`: with strict mode on and at least one unanswered question, the
chapter is reported `insufficient_answers`, no submission POST is made, and
the job's chapter loop stops there (no later chapter is processed); with
strict mode off, submission enabled, coverage not below the threshold, and
at least one answer generated, the submission POST is made. -/
theorem c2_amended (page : ChapterPage) (minRate : ℚ) (submit : Bool)
    (c : ChapterRef) (rest : List ChapterRef) (pages : Nat → ChapterPage)
    (cancelAt : Nat → Bool)
    (hpage : page.pageOk = true) (hform : page.formFound = true)
    (hne : page.questions ≠ [])
    (htotal : 0 < (scanQuestions page.questions).1.total) :
    (0 < (scanQuestions page.questions).1.missing →
      (autoAnswerWithReport page submit true minRate).status =
        "insufficient_answers" ∧
      (autoAnswerWithReport page submit true minRate).submitCalled = false ∧
      (pages c.examId = page → cancelAt 0 = false →
        runChapters pages cancelAt submit true minRate (c :: rest) 0 =
          ([(c, autoAnswerWithReport page submit true minRate)], false))) ∧
    (0 < (scanQuestions page.questions).1.answered →
      minRate ≤ ((scanQuestions page.questions).1.answered : ℚ) /
        ((scanQuestions page.questions).1.total : ℚ) →
      submit = true →
      (autoAnswerWithReport page submit false minRate).submitCalled = true) := by
  have ht0 : ¬ (scanQuestions page.questions).1.total = 0 := by omega
  constructor
  · intro hmiss
    have hrep : autoAnswerWithReport page submit true minRate =
        ⟨false, "insufficient_answers", "存在未找到答案的题目，已停止提交",
         (scanQuestions page.questions).1, false⟩ := by
      unfold autoAnswerWithReport
      rw [scanQuestions] at ht0 hmiss
      simp [hpage, hform, hne, ht0, hmiss, scanQuestions]
    refine ⟨by rw [hrep], by rw [hrep], ?_⟩
    intro hpc hcan
    rw [runChapters, hpc]
    simp [hcan, hrep]
  · intro hans hrate hsub
    subst hsub
    have hnlt : ¬ (((scanQuestions page.questions).1.answered : ℚ) /
        ((scanQuestions page.questions).1.total : ℚ) < minRate) :=
      not_lt.mpr hrate
    have had : (scanQuestions page.questions).2 ≠ [] := by
      have hlen := scanQuestions_len_answered page.questions zeroStats []
        (by simp [zeroStats])
      intro he
      rw [scanQuestions] at hans
      rw [scanQuestions] at he
      rw [he] at hlen
      simp at hlen
      omega
    unfold autoAnswerWithReport
    simp only [hpage, hform, hne, ht0, hnlt, scanQuestions] at *
    simp [hpage, hform, hne, ht0, hnlt, had, scanQuestions]
    by_cases h200 : page.submitHttpStatus = 200 <;> simp [h200]

theorem c2_amended_witness :
    (autoAnswerWithReport ⟨true, true,
        [⟨true, some "A", some "q1", true⟩, ⟨true, none, none, false⟩], 200⟩
        true true 0).status = "insufficient_answers" ∧
    (autoAnswerWithReport ⟨true, true,
        [⟨true, some "A", some "q1", true⟩, ⟨true, none, none, false⟩], 200⟩
        true true 0).submitCalled = false ∧
    runChapters
      (fun _ => ⟨true, true,
        [⟨true, some "A", some "q1", true⟩, ⟨true, none, none, false⟩], 200⟩)
      (fun _ => false) true true 0 [⟨5, "c1"⟩, ⟨6, "c2"⟩] 0 =
      ([(⟨5, "c1"⟩, autoAnswerWithReport ⟨true, true,
          [⟨true, some "A", some "q1", true⟩, ⟨true, none, none, false⟩], 200⟩
          true true 0)], false) ∧
    (autoAnswerWithReport ⟨true, true, [⟨true, some "A", some "q1", true⟩], 200⟩
        true false 0).submitCalled = true := by
  have h1 := c2_amended
    ⟨true, true, [⟨true, some "A", some "q1", true⟩, ⟨true, none, none, false⟩], 200⟩
    0 true ⟨5, "c1"⟩ [⟨6, "c2"⟩]
    (fun _ => ⟨true, true,
      [⟨true, some "A", some "q1", true⟩, ⟨true, none, none, false⟩], 200⟩)
    (fun _ => false) rfl rfl (by decide) (by decide)
  have h2 := c2_amended
    ⟨true, true, [⟨true, some "A", some "q1", true⟩], 200⟩
    0 true ⟨5, "c1"⟩ [] (fun _ => ⟨true, true, [⟨true, some "A", some "q1", true⟩], 200⟩)
    (fun _ => false) rfl rfl (by decide) (by decide)
  obtain ⟨ha, hb, hc⟩ := h1.1 (by decide)
  exact ⟨ha, hb, hc rfl rfl,
    h2.2 (by decide) (by norm_num [scanQuestions, scanQuestionsAux, zeroStats]) rfl⟩

/-- C3 (counterexample): a job in range mode with the invalid spec `"5-3"`
(start > end) fails with the `_parse_range` error, but the course-list and
chapter-list discovery calls have already been performed — the selection is
not rejected before network activity. -/
theorem c3_counterexample :
    (execTaskSync ⟨true, true, true, [7], [⟨11, "c1"⟩, ⟨12, "c2"⟩], [],
        fun _ => ⟨true, true, [⟨true, some "A", some "q", true⟩], 200⟩⟩
      "范围" "5-3" 7 false true 0 (fun _ => false)).success = false ∧
    (execTaskSync ⟨true, true, true, [7], [⟨11, "c1"⟩, ⟨12, "c2"⟩], [],
        fun _ => ⟨true, true, [⟨true, some "A", some "q", true⟩], 200⟩⟩
      "范围" "5-3" 7 false true 0 (fun _ => false)).error = some "范围参数错误" ∧
    NetEv.fetchCourses ∈ (execTaskSync ⟨true, true, true, [7],
        [⟨11, "c1"⟩, ⟨12, "c2"⟩], [],
        fun _ => ⟨true, true, [⟨true, some "A", some "q", true⟩], 200⟩⟩
      "范围" "5-3" 7 false true 0 (fun _ => false)).events ∧
    NetEv.fetchChapters ∈ (execTaskSync ⟨true, true, true, [7],
        [⟨11, "c1"⟩, ⟨12, "c2"⟩], [],
        fun _ => ⟨true, true, [⟨true, some "A", some "q", true⟩], 200⟩⟩
      "范围" "5-3" 7 false true 0 (fun _ => false)).events := by
  refine ⟨?_, ?_, ?_, ?_⟩ <;> decide

/-- C3 (amended): a range-mode job whose bounds fail `_parse_range`
validation (start > end, non-positive, or malformed) always fails, and
although the course-list and chapter-list fetches may already have run, no
completion fetch, no chapter-page fetch and no submission POST is ever
performed for it; when the job got as far as the selection step the
recorded error is exactly the parse error. -/
theorem c3_amended (env : PipeEnv) (spec : String) (courseId : Nat)
    (strict autoSubmit : Bool) (minRate : ℚ) (cancelAt : Nat → Bool)
    (e : String) (hparse : parseRange spec = Except.error e) :
    (execTaskSync env "范围" spec courseId strict autoSubmit minRate
      cancelAt).success = false ∧
    NetEv.fetchCompletions ∉ (execTaskSync env "范围" spec courseId strict
      autoSubmit minRate cancelAt).events ∧
    (∀ examId, NetEv.fetchChapterPage examId ∉ (execTaskSync env "范围" spec
      courseId strict autoSubmit minRate cancelAt).events) ∧
    (∀ examId, NetEv.submitAnswers examId ∉ (execTaskSync env "范围" spec
      courseId strict autoSubmit minRate cancelAt).events) ∧
    (env.bindingFound = true →
      (env.alreadyLoggedIn = true ∨ env.loginNegotiationOk = true) →
      env.courseIds.contains courseId = true → env.chapters ≠ [] →
      (execTaskSync env "范围" spec courseId strict autoSubmit minRate
        cancelAt).error = some e) := by
  have hsel : selectChapters env "范围" spec = (Except.error e, false) := by
    unfold selectChapters
    rw [hparse]
    simp
  unfold execTaskSync
  rw [hsel]
  by_cases hb : env.bindingFound = false
  · simp [hb]
  · simp only [hb, if_false]
    by_cases hlog : env.alreadyLoggedIn = false ∧ env.loginNegotiationOk = false
    · rw [if_pos hlog]
      obtain ⟨hl1, hl2⟩ := hlog
      simp [hl1, hl2]
    · rw [if_neg hlog]
      by_cases hcourse : env.courseIds.contains courseId = false
      · have hni : courseId ∉ env.courseIds := by simpa using hcourse
        cases henrolled : env.alreadyLoggedIn <;>
          simp [henrolled, hni, hcourse]
      · rw [if_neg hcourse]
        have hyes : courseId ∈ env.courseIds := by
          rw [Bool.not_eq_false] at hcourse
          simpa using hcourse
        by_cases hch : env.chapters = []
        · cases henrolled : env.alreadyLoggedIn <;>
            simp [henrolled, hyes, hch]
        · cases henrolled : env.alreadyLoggedIn <;>
            simp [henrolled, hyes, hch]

theorem c3_amended_witness :
    (execTaskSync ⟨true, true, true, [7], [⟨11, "c1"⟩, ⟨12, "c2"⟩], [],
        fun _ => ⟨true, true, [⟨true, some "A", some "q", true⟩], 200⟩⟩
      "范围" "0-2" 7 false true 0 (fun _ => false)).success = false ∧
    NetEv.fetchCompletions ∉ (execTaskSync ⟨true, true, true, [7],
        [⟨11, "c1"⟩, ⟨12, "c2"⟩], [],
        fun _ => ⟨true, true, [⟨true, some "A", some "q", true⟩], 200⟩⟩
      "范围" "0-2" 7 false true 0 (fun _ => false)).events ∧
    NetEv.fetchChapterPage 11 ∉ (execTaskSync ⟨true, true, true, [7],
        [⟨11, "c1"⟩, ⟨12, "c2"⟩], [],
        fun _ => ⟨true, true, [⟨true, some "A", some "q", true⟩], 200⟩⟩
      "范围" "0-2" 7 false true 0 (fun _ => false)).events ∧
    NetEv.submitAnswers 11 ∉ (execTaskSync ⟨true, true, true, [7],
        [⟨11, "c1"⟩, ⟨12, "c2"⟩], [],
        fun _ => ⟨true, true, [⟨true, some "A", some "q", true⟩], 200⟩⟩
      "范围" "0-2" 7 false true 0 (fun _ => false)).events ∧
    (execTaskSync ⟨true, true, true, [7], [⟨11, "c1"⟩, ⟨12, "c2"⟩], [],
        fun _ => ⟨true, true, [⟨true, some "A", some "q", true⟩], 200⟩⟩
      "范围" "0-2" 7 false true 0 (fun _ => false)).error = some "范围参数错误" := by
  have h := c3_amended ⟨true, true, true, [7], [⟨11, "c1"⟩, ⟨12, "c2"⟩], [],
      fun _ => ⟨true, true, [⟨true, some "A", some "q", true⟩], 200⟩⟩
    "0-2" 7 false true 0 (fun _ => false) "范围参数错误" rfl
  exact ⟨h.1, h.2.1, h.2.2.1 11, h.2.2.2.1 11,
    h.2.2.2.2 rfl (Or.inl rfl) (by decide) (by decide)⟩

theorem storeFind_map_same (bs : List (String × BindingRecord)) (qq : String)
    (g : BindingRecord → BindingRecord) :
    storeFind (bs.map (fun p => if p.1 = qq then (p.1, g p.2) else p)) qq =
      (storeFind bs qq).map g := by
  induction bs with
  | nil => simp [storeFind]
  | cons p rest ih =>
    by_cases hp : p.1 = qq
    · simp [storeFind, List.find?_cons_of_pos, hp]
    · have hb : (p.1 == qq) = false := by simpa using hp
      simp only [List.map_cons, if_neg hp]
      rw [storeFind, storeFind, List.find?_cons_of_neg _ (by simpa using hp),
        List.find?_cons_of_neg _ (by simpa using hp)]
      exact ih

theorem storeFind_map_other (bs : List (String × BindingRecord))
    (qq qq' : String) (hne : qq' ≠ qq) (g : BindingRecord → BindingRecord) :
    storeFind (bs.map (fun p => if p.1 = qq then (p.1, g p.2) else p)) qq' =
      storeFind bs qq' := by
  induction bs with
  | nil => simp [storeFind]
  | cons p rest ih =>
    by_cases hp : p.1 = qq
    · have hnm : (p.1 == qq') = false := by
        simp [hp]
        exact fun h => hne h.symm
      simp only [List.map_cons, if_pos hp]
      rw [storeFind, storeFind, List.find?_cons_of_neg _ (by simpa using hnm),
        List.find?_cons_of_neg _ (by simpa using hnm)]
      exact ih
    · simp only [List.map_cons, if_neg hp]
      by_cases hm : p.1 = qq'
      · rw [storeFind, storeFind, List.find?_cons_of_pos _ (by simpa using hm),
          List.find?_cons_of_pos _ (by simpa using hm)]
      · rw [storeFind, storeFind, List.find?_cons_of_neg _ (by simpa using hm),
          List.find?_cons_of_neg _ (by simpa using hm)]
        exact ih

/-- C9: rebinding an identity that already holds a different username fails
with the conflict message and leaves the whole store unchanged (every field
of every record); rebinding with the same username succeeds, replaces only
the encrypted secret and `updated_at` of that identity's record (username
and `bound_at` are kept), and leaves every other identity's record
unchanged. -/
theorem c9_bind_frame (encryptFn : String → String) (now : String)
    (bs : List (String × BindingRecord)) (qq u pw : String) (b : BindingRecord)
    (hfound : storeFind bs qq = some b) :
    (b.username ≠ u →
      bindAccount encryptFn now bs qq u pw = (bs, false, bindMsgConflict)) ∧
    (b.username = u →
      (bindAccount encryptFn now bs qq u pw).2.1 = true ∧
      (bindAccount encryptFn now bs qq u pw).2.2 = bindMsgUpdated ∧
      storeFind (bindAccount encryptFn now bs qq u pw).1 qq =
        some ⟨b.username, encryptFn pw, b.boundAt, now⟩ ∧
      ∀ qq', qq' ≠ qq →
        storeFind (bindAccount encryptFn now bs qq u pw).1 qq' =
          storeFind bs qq') := by
  constructor
  · intro hdiff
    unfold bindAccount
    rw [hfound]
    dsimp only
    rw [if_pos hdiff]
  · intro hsame
    have hres : bindAccount encryptFn now bs qq u pw =
        (bs.map (fun p => if p.1 = qq then
            (p.1, { p.2 with password := encryptFn pw, updatedAt := now })
          else p),
         true, bindMsgUpdated) := by
      unfold bindAccount
      rw [hfound]
      dsimp only
      rw [if_neg (by simp [hsame])]
    refine ⟨by rw [hres], by rw [hres], ?_, ?_⟩
    · have hfm := storeFind_map_same bs qq
        (fun r => { r with password := encryptFn pw, updatedAt := now })
      rw [hfound] at hfm
      rw [hres]
      exact hfm
    · intro qq' hne
      rw [hres]
      exact storeFind_map_other bs qq qq' hne
        (fun r => { r with password := encryptFn pw, updatedAt := now })

theorem c9_bind_frame_witness :
    bindAccount (fun p => "enc" ++ p) "t1"
      [("qq1", ⟨"alice", "enc0", "t0", "t0"⟩)] "qq1" "bob" "pw2" =
      ([("qq1", ⟨"alice", "enc0", "t0", "t0"⟩)], false, bindMsgConflict) ∧
    (bindAccount (fun p => "enc" ++ p) "t1"
      [("qq1", ⟨"alice", "enc0", "t0", "t0"⟩)] "qq1" "alice" "pw2").2.1 = true ∧
    storeFind (bindAccount (fun p => "enc" ++ p) "t1"
      [("qq1", ⟨"alice", "enc0", "t0", "t0"⟩)] "qq1" "alice" "pw2").1 "qq1" =
      some ⟨"alice", "enc" ++ "pw2", "t0", "t1"⟩ ∧
    storeFind (bindAccount (fun p => "enc" ++ p) "t1"
      [("qq1", ⟨"alice", "enc0", "t0", "t0"⟩)] "qq1" "alice" "pw2").1 "qq9" =
      storeFind [("qq1", ⟨"alice", "enc0", "t0", "t0"⟩)] "qq9" := by
  have h1 := c9_bind_frame (fun p => "enc" ++ p) "t1"
    [("qq1", ⟨"alice", "enc0", "t0", "t0"⟩)] "qq1" "bob" "pw2"
    ⟨"alice", "enc0", "t0", "t0"⟩ (by decide)
  have h2 := c9_bind_frame (fun p => "enc" ++ p) "t1"
    [("qq1", ⟨"alice", "enc0", "t0", "t0"⟩)] "qq1" "alice" "pw2"
    ⟨"alice", "enc0", "t0", "t0"⟩ (by decide)
  obtain ⟨hok, _, hfind, hother⟩ := h2.2 rfl
  exact ⟨h1.1 (by decide), hok, hfind, hother "qq9" (by decide)⟩

/-- C10: a stored binding whose encrypted secret fails to decrypt under the
current key makes `BindingStore.get` return `none` (the `InvalidToken`
branch) — at the public interface such a user is indistinguishable from a
user with no stored binding, for whom `get` also returns `none`. -/
theorem c10_get_none (decryptFn : String → Option String)
    (bs : List (String × BindingRecord)) (qq : String) (d : BindingRecord)
    (hfound : storeFind bs qq = some d)
    (hfail : decryptFn d.password = none) :
    getBinding decryptFn bs qq = none ∧
    (∀ bs' qq', storeFind bs' qq' = none →
      getBinding decryptFn bs' qq' = none) := by
  constructor
  · unfold getBinding
    rw [hfound]
    dsimp only
    rw [hfail]
  · intro bs' qq' h
    unfold getBinding
    rw [h]

theorem c10_get_none_witness :
    getBinding (fun _ => none)
      [("qq1", ⟨"alice", "enc0", "t0", "t0"⟩)] "qq1" = none ∧
    getBinding (fun _ => none) [] "qq2" = none := by
  have h := c10_get_none (fun _ => none)
    [("qq1", ⟨"alice", "enc0", "t0", "t0"⟩)] "qq1"
    ⟨"alice", "enc0", "t0", "t0"⟩ (by decide) rfl
  exact ⟨h.1, h.2 [] "qq2" (by decide)⟩

end QuizPlugin
